import Mathlib

/-!
# rw_spinlock: a shallow embedding of `rw_spinlock.h`

The default instantiation `rw_spinlock<type, int32_t, int16_t>` is modelled.  The state
word `data.interface.writer_lock` is an `int32_t`; it is represented by its signed
value, an `Int` kept in `[-2^31, 2^31)` by `wrap32`.  The two `int16_t` fields of
`data.view` overlay it (little-endian layout): `reader_count_negative`, declared first,
is the low half and `writer_lock` the high half, each read as a signed 16-bit value.
The `__sync_*` builtins wrap in two's complement; those applied to `data.view.writer_lock`
act on the high half only, with no carry into or out of the low half.

Every thread is a program counter (`PC`); one step of a thread is one load, store or
atomic read-modify-write of the source, or the entry into a call.  The policy is the
template parameter `type`, so a test on it costs no step.
-/

namespace RwSpinlock

/-! ## Machine integers -/

/-- Signed value of the low 32 bits of `x` (conversion to `int32_t`). -/
def wrap32 (x : Int) : Int := (x + 2147483648) % 4294967296 - 2147483648

/-- Signed value of the low 16 bits of `x` (conversion to `int16_t`). -/
def wrap16 (x : Int) : Int := (x + 32768) % 65536 - 32768

/-- Field `data.view.reader_count_negative`: the low half of the word, signed. -/
def reader_count_negative (w : Int) : Int := wrap16 w

/-- Field `data.view.writer_lock`: the high half of the word, signed. -/
def view_writer_lock (w : Int) : Int := wrap16 (w / 65536)

/-- The word after the half-width field `data.view.writer_lock` is set to `v`;
the low half is untouched. -/
def set_view_writer_lock (w v : Int) : Int := wrap32 (wrap16 v * 65536 + w % 65536)

/-- Bitwise `x & mask` for a mask of the form `2^k - 1`: the low `k` bits of `x`. -/
def bitand_mask (x mask : Int) : Int := x % (mask + 1)

/-- The five policies of `rw_spinlock_type`. -/
inductive rw_spinlock_enum
  | WRITER_FIRST
  | WRITER_PRIOR
  | FAIR
  | READER_PRIOR
  | READER_FIRST
  deriving DecidableEq, Repr

open rw_spinlock_enum

/-- Numeric value of a policy (`const static rw_spinlock_enum ... = 0..4`). -/
def rw_spinlock_enum.val : rw_spinlock_enum → Nat
  | WRITER_FIRST => 0
  | WRITER_PRIOR => 1
  | FAIR => 2
  | READER_PRIOR => 3
  | READER_FIRST => 4

/-- Line 20, `(int_half_type)(((uint16_t)-1)>>1)` with `int_half_type = int16_t`. -/
def int_half_type_max : Int := wrap16 (((-1 : Int) % 65536) / 2)

/-- Line 21, `(((int_type)(int_half_type_max)) + 1) << 1` with `int_type = int32_t`. -/
def writer_step : Int := wrap32 ((int_half_type_max + 1) * 2)

/-- Line 99, `step` of `writer_unlock`. -/
def step (t : rw_spinlock_enum) : Int := if t.val ≥ FAIR.val then int_half_type_max else 1

/-- `__sync_fetch_and_add` / `__sync_fetch_and_sub` on the full word: the new word. -/
def fetch_add_full (w d : Int) : Int := wrap32 (w + d)

/-- `__sync_fetch_and_add` / `__sync_fetch_and_sub` on the half-width field
`data.view.writer_lock`: the new word. -/
def fetch_add_half (w d : Int) : Int := set_view_writer_lock w (view_writer_lock w + d)

/-! ## Program counters and the step of one thread -/

/-- Program points of a thread.  The number in each comment is the source line whose
operation the thread performs next. -/
inductive PC
  | idle            -- outside every call
  | rlCheck         -- 42  reader_lock: pre-check loop
  | rlSub           -- 43  reader_lock: fetch_and_sub(full, 1)
  | rlRollback      -- 48  reader_lock: fetch_and_add(full, 1)
  | rlWait          -- 51  reader_lock: wait for the writer unlock
  | rHold           -- reader_lock has returned (reader critical section)
  | ruAdd           -- 61  reader_unlock: fetch_and_add(full, 1)
  | wlSpin          -- 68  writer_lock: wait for view.writer_lock == 0
  | wlCas           -- 70  writer_lock: compare_and_swap(view.writer_lock, 0, max)
  | wlCheck         -- 76/78 writer_lock: pre-check loop
  | wlAdd           -- 81  writer_lock: fetch_and_add(full, writer_step)
  | wlWaitReaders   -- 85  writer_lock: wait for reader_count_negative == 0
  | wlRollback      -- 88  writer_lock: fetch_and_sub(view.writer_lock, 1)
  | wHold           -- writer_lock has returned (writer critical section)
  | wuSub           -- 103/114 writer_unlock: fetch_and_sub(view.writer_lock, step)
  | wuWait          -- 106 writer_unlock: wait for view.writer_lock == step
  | wuReset         -- 107 writer_unlock: view.writer_lock = 0
  | wuLoad          -- 110 writer_unlock: result = view.writer_lock
  | wuStore         -- 112 writer_unlock: view.writer_lock = -1
  | wgCheck         -- 143 writer_lock_group: pre-check loop
  | wgInc           -- 144 writer_lock_group: fetch_and_add(view.writer_lock, 1)
  | wgWait          -- 146 writer_lock_group: wait for reader_count_negative == 0
  | wgSpin          -- 149 writer_lock_group: wait for reader_count_negative == 0
  | wgAdd           -- 150 writer_lock_group: fetch_and_add(full, writer_step)
  | wgRollback      -- 155 writer_lock_group: fetch_and_sub(view.writer_lock, 1)
  | wgHold          -- writer_lock_group has returned (group-writer critical section)
  | wguSub          -- 163 writer_unlock_group: fetch_and_sub(view.writer_lock, 1)
  deriving DecidableEq, Repr

open PC

/-- The call an idle thread makes next. -/
inductive Call
  | reader        -- reader_lock / reader_lock_group
  | writer        -- writer_lock
  | writerGroup   -- writer_lock_group
  deriving DecidableEq, Repr

/-- First program point of `writer_lock` (the branch of line 66 is fixed by the policy). -/
def writer_lock_entry (t : rw_spinlock_enum) : PC :=
  if t.val > WRITER_PRIOR.val then wlSpin else wlCheck

/-- First program point of `writer_unlock(not_wait_free)` (lines 100, 101). -/
def writer_unlock_entry (t : rw_spinlock_enum) (not_wait_free : Bool) : PC :=
  if t.val ≤ FAIR.val then
    if !not_wait_free || t ≠ FAIR then wuSub else wuWait
  else wuLoad

/-- First program point of `writer_lock_group` (line 142). -/
def writer_lock_group_entry (t : rw_spinlock_enum) : PC :=
  if t.val ≤ WRITER_PRIOR.val then wgCheck else wgSpin

/-- One step of a thread at program point `pc` when the state word is `w`: the new word
and the new program point.  `c` is the call an idle thread starts; `nwf` is the argument
`not_wait_free` the thread passes to `writer_unlock`. -/
def threadStep (t : rw_spinlock_enum) (nwf : Bool) (c : Call) (w : Int) : PC → Int × PC
  | idle =>
    match c with
    | Call.reader => (w, rlCheck)
    | Call.writer => (w, writer_lock_entry t)
    | Call.writerGroup => (w, writer_lock_group_entry t)
  -- reader_lock
  | rlCheck =>
    if t.val < READER_FIRST.val ∧ w > 0 then (w, rlCheck) else (w, rlSub)
  | rlSub =>
    let result := w
    let w1 := fetch_add_full w (-1)
    if result > 0 then
      if t.val < READER_PRIOR.val then (w1, rlRollback) else (w1, rlWait)
    else (w1, rHold)
  | rlRollback => (fetch_add_full w 1, rlCheck)
  | rlWait => if view_writer_lock w ≥ 0 then (w, rlWait) else (w, rHold)
  | rHold => (w, ruAdd)
  -- reader_unlock
  | ruAdd => (fetch_add_full w 1, idle)
  -- writer_lock, compare-and-swap family
  | wlSpin => if view_writer_lock w ≠ 0 then (w, wlSpin) else (w, wlCas)
  | wlCas =>
    if view_writer_lock w = 0 then (set_view_writer_lock w int_half_type_max, wHold)
    else (w, wlSpin)
  -- writer_lock, additive family
  | wlCheck =>
    if t = WRITER_FIRST then
      if w > 0 then (w, wlCheck) else (w, wlAdd)
    else
      if w ≠ 0 then (w, wlCheck) else (w, wlAdd)
  | wlAdd =>
    let result := w
    let w1 := fetch_add_full w writer_step
    if result = 0 then (w1, wHold)
    else if result < 0 then (w1, wlWaitReaders)
    else (w1, wlRollback)
  | wlWaitReaders =>
    if reader_count_negative w ≠ 0 then (w, wlWaitReaders) else (w, wHold)
  | wlRollback => (fetch_add_half w (-1), writer_lock_entry t)
  | wHold => (w, writer_unlock_entry t nwf)
  -- writer_unlock
  | wuSub => (fetch_add_half w (-(step t)), idle)
  | wuWait => if view_writer_lock w ≠ step t then (w, wuWait) else (w, wuReset)
  | wuReset => (set_view_writer_lock w 0, idle)
  | wuLoad =>
    let result := view_writer_lock w
    if result = step t - 1 then (w, wuStore) else (w, wuSub)
  | wuStore => (set_view_writer_lock w (-1), idle)
  -- writer_lock_group
  | wgCheck =>
    if t = WRITER_PRIOR ∧ reader_count_negative w ≠ 0 then (w, wgCheck) else (w, wgInc)
  | wgInc => (fetch_add_half w 1, wgWait)
  | wgWait => if reader_count_negative w ≠ 0 then (w, wgWait) else (w, wgHold)
  | wgSpin => if reader_count_negative w ≠ 0 then (w, wgSpin) else (w, wgAdd)
  | wgAdd =>
    let result := w
    let w1 := fetch_add_full w writer_step
    if bitand_mask result (writer_step - 1) = 0 then (w1, wgHold) else (w1, wgRollback)
  | wgRollback => (fetch_add_half w (-1), wgSpin)
  | wgHold => (w, wguSub)
  -- writer_unlock_group
  | wguSub => (fetch_add_half w (-1), idle)

/-! ## Calls run by one thread alone -/

/-- Step a thread from program point `pc` until it reaches a program point accepted by
`exit`, taking at most `fuel` steps; `none` when the fuel does not suffice.  (The call
argument of `threadStep` is read at `idle` only, where no call is in progress.) -/
def runCall (t : rw_spinlock_enum) (nwf : Bool) (exit : PC → Bool) :
    Nat → Int → PC → Option Int
  | 0, w, pc => if exit pc then some w else none
  | k + 1, w, pc =>
    if exit pc then some w
    else runCall t nwf exit k (threadStep t nwf Call.reader w pc).1
      (threadStep t nwf Call.reader w pc).2

/-- `reader_lock()` run alone on the word `w`. -/
def reader_lock (t : rw_spinlock_enum) (fuel : Nat) (w : Int) : Option Int :=
  runCall t false (fun pc => pc == rHold) fuel w rlCheck

/-- `reader_unlock()` run alone on the word `w`. -/
def reader_unlock (t : rw_spinlock_enum) (fuel : Nat) (w : Int) : Option Int :=
  runCall t false (fun pc => pc == idle) fuel w ruAdd

/-- `writer_lock()` run alone on the word `w`. -/
def writer_lock (t : rw_spinlock_enum) (fuel : Nat) (w : Int) : Option Int :=
  runCall t false (fun pc => pc == wHold) fuel w (writer_lock_entry t)

/-- `writer_unlock(not_wait_free)` run alone on the word `w`. -/
def writer_unlock (t : rw_spinlock_enum) (not_wait_free : Bool) (fuel : Nat) (w : Int) :
    Option Int :=
  runCall t not_wait_free (fun pc => pc == idle) fuel w (writer_unlock_entry t not_wait_free)

/-- `reader_lock_group()` (line 133: it calls `reader_lock`). -/
def reader_lock_group (t : rw_spinlock_enum) (fuel : Nat) (w : Int) : Option Int :=
  reader_lock t fuel w

/-- `reader_unlock_group()` (line 137: it calls `reader_unlock`). -/
def reader_unlock_group (t : rw_spinlock_enum) (fuel : Nat) (w : Int) : Option Int :=
  reader_unlock t fuel w

/-- `writer_lock_group()` run alone on the word `w`. -/
def writer_lock_group (t : rw_spinlock_enum) (fuel : Nat) (w : Int) : Option Int :=
  runCall t false (fun pc => pc == wgHold) fuel w (writer_lock_group_entry t)

/-- `writer_unlock_group()` run alone on the word `w`. -/
def writer_unlock_group (t : rw_spinlock_enum) (fuel : Nat) (w : Int) : Option Int :=
  runCall t false (fun pc => pc == idle) fuel w wguSub

/-- `n` successive calls of `f`, each on the word the previous one left. -/
def repeatCall (f : Int → Option Int) : Nat → Int → Option Int
  | 0, w => some w
  | n + 1, w => (f w).bind (repeatCall f n)

/-! ## Threads sharing one lock -/

/-- State of the system: the state word and the program point of every thread. -/
structure SysState where
  word : Int
  pcs : List PC
  deriving DecidableEq, Repr

/-- Initial state of `n` threads: the constructor (line 38) has set the word to 0. -/
def initState (n : Nat) : SysState := ⟨0, List.replicate n idle⟩

/-- Thread `i` takes one step (nothing happens when there is no thread `i`). -/
def sysStep (t : rw_spinlock_enum) (nwf : Bool) (s : SysState) (i : Nat) (c : Call) :
    SysState :=
  match s.pcs[i]? with
  | none => s
  | some pc =>
    ⟨(threadStep t nwf c s.word pc).1, s.pcs.set i (threadStep t nwf c s.word pc).2⟩

/-- The calls open to an idle thread of the base lock: `false` a reader round,
`true` a writer round. -/
def baseCall (b : Bool) : Call := if b then Call.writer else Call.reader

/-- The calls open to an idle thread of the group lock: `false` a reader round,
`true` a group-writer round. -/
def groupCall (b : Bool) : Call := if b then Call.writerGroup else Call.reader

/-- Run a schedule: each entry names the thread that steps next and the kind of round
it starts if it is idle. -/
def sysRun (t : rw_spinlock_enum) (nwf : Bool) (calls : Bool → Call) :
    List (Nat × Bool) → SysState → SysState
  | [], s => s
  | a :: rest, s => sysRun t nwf calls rest (sysStep t nwf s a.1 (calls a.2))

/-- Thread `i` is at program point `pc`. -/
def atPC (s : SysState) (i : Nat) (pc : PC) : Prop := s.pcs[i]? = some pc

/-! ## Counting threads by program point -/

/-- Readers that have been admitted: in the critical section or releasing. -/
def pRH : PC → Bool
  | rHold | ruAdd => true
  | _ => false

/-- Readers waiting at line 51 (their decrement stands). -/
def pRWait : PC → Bool
  | rlWait => true
  | _ => false

/-- Readers about to roll their decrement back (line 48). -/
def pRRb : PC → Bool
  | rlRollback => true
  | _ => false

/-- Writers waiting for the readers to leave (line 85); their addition stands. -/
def pWWait : PC → Bool
  | wlWaitReaders => true
  | _ => false

/-- Writers in the critical section or inside `writer_unlock` before the release,
those about to store -1 excepted. -/
def pWH : PC → Bool
  | wHold | wuSub | wuLoad => true
  | _ => false

/-- Writers about to store -1 (line 112). -/
def pStore : PC → Bool
  | wuStore => true
  | _ => false

/-- Writers about to roll their addition back (line 88). -/
def pWRb : PC → Bool
  | wlRollback => true
  | _ => false

/-- Group writers whose increment stands and who are not admitted: waiting for the
readers (line 146) or about to roll back (line 155). -/
def pGW : PC → Bool
  | wgWait | wgRollback => true
  | _ => false

/-- Group writers in the critical section or inside `writer_unlock_group`. -/
def pGH : PC → Bool
  | wgHold | wguSub => true
  | _ => false

/-- Program points a thread never visits: with policy `t`, on the base lock with the
wait-free `writer_unlock` (`grp = false`) or on the group lock (`grp = true`). -/
def pcBad (grp : Bool) (t : rw_spinlock_enum) : PC → Bool
  | wgCheck | wgInc | wgWait => !grp || decide (t.val > WRITER_PRIOR.val)
  | wgSpin | wgAdd | wgRollback => !grp || decide (t.val ≤ WRITER_PRIOR.val)
  | wgHold | wguSub => !grp
  | wuWait | wuReset => true
  | wlCheck | wlAdd | wlWaitReaders | wlRollback => grp || decide (t.val > WRITER_PRIOR.val)
  | wlSpin | wlCas => grp || decide (t.val ≤ WRITER_PRIOR.val)
  | wuLoad | wuStore => grp || decide (t.val < READER_PRIOR.val)
  | wHold | wuSub => grp
  | rlWait => decide (t.val < READER_PRIOR.val)
  | rlRollback => decide (t.val ≥ READER_PRIOR.val)
  | _ => false

/-- The calls open to an idle thread: those of the group lock when `grp`, those of the
base lock otherwise. -/
def callOf (grp : Bool) (b : Bool) : Call := if grp then groupCall b else baseCall b

/-- Invariant of the lock (base lock with wait-free `writer_unlock`, or group lock):
the word is the sum of what the threads in flight have added to it, at most one base
writer's acquisition stands, and a writer that holds excludes every admitted reader. -/
def LockInv (grp : Bool) (t : rw_spinlock_enum) (s : SysState) : Prop :=
  s.pcs.length ≤ 16383 ∧
  s.pcs.countP (pcBad grp t) = 0 ∧
  (s.word : Int) + ((s.pcs.countP pRH : Int) + (s.pcs.countP pRWait : Int)
      + (s.pcs.countP pRRb : Int))
    = 65536 * (step t * ((s.pcs.countP pWWait : Int) + (s.pcs.countP pWH : Int)
        + (s.pcs.countP pStore : Int))
      + (s.pcs.countP pWRb : Int) + (s.pcs.countP pGW : Int) + (s.pcs.countP pGH : Int)) ∧
  s.pcs.countP pWWait + s.pcs.countP pWH + s.pcs.countP pStore ≤ 1 ∧
  (1 ≤ s.pcs.countP pWH + s.pcs.countP pStore + s.pcs.countP pGH → s.pcs.countP pRH = 0) ∧
  (1 ≤ s.pcs.countP pStore → 1 ≤ s.pcs.countP pRWait)

/-- Two distinct threads `i` and `j` are both in a writer critical section. -/
def twoWriters (s : SysState) (i j : Nat) : Prop :=
  i ≠ j ∧ atPC s i wHold ∧ atPC s j wHold

/-- Thread `i` is in a reader critical section while thread `j` is in a writer
critical section. -/
def readerAndWriter (s : SysState) (i j : Nat) : Prop := atPC s i rHold ∧ atPC s j wHold

/-- Thread `i` is in a reader critical section while thread `j` is in a group-writer
critical section. -/
def readerAndGroupWriter (s : SysState) (i j : Nat) : Prop :=
  atPC s i rHold ∧ atPC s j wgHold

/-! ## A call running against the releases of other threads -/

/-- One step of a call that returns at the program points accepted by `exit`: a thread
that has returned stays where it is. -/
def callStep (t : rw_spinlock_enum) (nwf : Bool) (exit : PC → Bool) (s : Int × PC) :
    Int × PC :=
  if exit s.2 then s else threadStep t nwf Call.reader s.1 s.2

/-- Run a call against an environment: `true` in the schedule is a step of the caller,
`false` is one atomic operation `env` of another thread on the word. -/
def runAgainst (t : rw_spinlock_enum) (nwf : Bool) (exit : PC → Bool) (env : Int → Int) :
    List Bool → Int × PC → Int × PC
  | [], s => s
  | true :: rest, s => runAgainst t nwf exit env rest (callStep t nwf exit s)
  | false :: rest, s => runAgainst t nwf exit env rest (env s.1, s.2)

/-- The atomic operation of `reader_unlock` (line 61) on the word. -/
def reader_unlock_op (w : Int) : Int := fetch_add_full w 1

/-- The atomic operation of `writer_unlock_group` (line 163) on the word. -/
def writer_unlock_group_op (w : Int) : Int := fetch_add_half w (-1)

/-- What a `writer_lock()` call sees while `m` of the readers that held the lock still
hold it: the word at each program point of the call. -/
def WriterWaitInv (t : rw_spinlock_enum) (m : Int) (s : Int × PC) : Prop :=
  match s.2 with
  | wlSpin => t.val > WRITER_PRIOR.val ∧ s.1 = -m
  | wlCas => t.val > WRITER_PRIOR.val ∧ s.1 = 0 ∧ m = 0
  | wlCheck => t.val ≤ WRITER_PRIOR.val ∧ s.1 = -m
  | wlAdd => t.val ≤ WRITER_PRIOR.val ∧ s.1 = -m ∧ (t ≠ WRITER_FIRST → m = 0)
  | wlWaitReaders => s.1 = 65536 - m
  | wHold => m = 0 ∧ reader_count_negative s.1 = 0
  | _ => False

/-- What a `reader_lock_group()` call sees while `m` of the group writers that held the
lock still hold it: the word at each program point of the call. -/
def ReaderWaitInv (t : rw_spinlock_enum) (m : Int) (s : Int × PC) : Prop :=
  match s.2 with
  | rlCheck => s.1 = 65536 * m
  | rlSub => s.1 = 65536 * m ∧ (t.val < READER_FIRST.val → m = 0)
  | rlWait => s.1 = 65536 * m - 1
  | rHold => m = 0 ∧ s.1 = -1
  | _ => False

/-! ## Other integer widths -/

/-- Signed value of the low `bits` bits of `x` (conversion to a signed integer type of
that width). -/
def wrapSigned (bits : Nat) (x : Int) : Int :=
  (x + 2 ^ (bits - 1)) % 2 ^ bits - 2 ^ (bits - 1)

/-- Line 20 for an `int_half_type` of `h` bits: `(int_half_type)(((uint16_t)-1)>>1)`.
The operand of the cast does not depend on `h`. -/
def int_half_type_max_of (h : Nat) : Int := wrapSigned h (((-1 : Int) % 65536) / 2)

/-- Line 21 for an `int_type` of `2 * h` bits:
`(((int_type)(int_half_type_max)) + 1) << 1`. -/
def writer_step_of (h : Nat) : Int := wrapSigned (2 * h) ((int_half_type_max_of h + 1) * 2)

/-- The low (reader) half of a word of `2 * h` bits, signed. -/
def reader_half_of (h : Nat) (w : Int) : Int := wrapSigned h w

/-- The high (writer) half of a word of `2 * h` bits, signed. -/
def writer_half_of (h : Nat) (w : Int) : Int := wrapSigned h (w / 2 ^ h)

/-! ## The spec's wording of two operations -/

/-- The spec's acquisition step of the writer indicator: 1 for the additive family
(WRITER_FIRST, WRITER_PRIOR), the exclusive sentinel 32767 for the compare-and-swap
family. -/
def acquire_step_spec : rw_spinlock_enum → Int
  | WRITER_FIRST => 1
  | WRITER_PRIOR => 1
  | FAIR => 32767
  | READER_PRIOR => 32767
  | READER_FIRST => 32767

/-- The spec's `writer_unlock`: the writer indicator loses the step used to acquire
(modulo 2^16) and the reader tally is unchanged. -/
def writer_unlock_spec (t : rw_spinlock_enum) (w : Int) : Int :=
  wrap32 (wrap16 (view_writer_lock w - acquire_step_spec t) * 65536 + w % 65536)

/-- The spec's writer compare-and-swap, on the combined word: from 0 to the exclusive
sentinel (writer indicator 32767, reader tally 0); `none` when it fails. -/
def cas_combined_spec (w : Int) : Option Int :=
  if w = 0 then some (32767 * 65536) else none

/-! ## Atomic additions of other threads -/

/-- An atomic addition or subtraction by another thread: on the full word, or on the
half-width field `data.view.writer_lock`. -/
inductive AtomicOp
  | full (d : Int)
  | half (d : Int)
  deriving DecidableEq, Repr

/-- The word after one atomic addition. -/
def applyOp (w : Int) : AtomicOp → Int
  | AtomicOp.full d => fetch_add_full w d
  | AtomicOp.half d => fetch_add_half w d

/-- The word after a sequence of atomic additions, in order. -/
def applyOps : List AtomicOp → Int → Int
  | [], w => w
  | op :: rest, w => applyOps rest (applyOp w op)

/-! # Theorems -/

/-! ## Constants and machine arithmetic -/

theorem int_half_type_max_eq : int_half_type_max = 32767 := by
  decide

theorem writer_step_eq : writer_step = 65536 := by
  decide

@[simp] theorem val_WRITER_FIRST : WRITER_FIRST.val = 0 := rfl

@[simp] theorem val_WRITER_PRIOR : WRITER_PRIOR.val = 1 := rfl

@[simp] theorem val_FAIR : FAIR.val = 2 := rfl

@[simp] theorem val_READER_PRIOR : READER_PRIOR.val = 3 := rfl

@[simp] theorem val_READER_FIRST : READER_FIRST.val = 4 := rfl

theorem step_cases (t : rw_spinlock_enum) :
    (t.val ≤ 1 ∧ step t = 1) ∨ (2 ≤ t.val ∧ step t = 32767) := by
  cases t <;> decide

theorem val_le_four (t : rw_spinlock_enum) : t.val ≤ 4 := by
  cases t <;> decide

theorem fetch_add_full_lin (w d : Int) (h1 : -2147483648 ≤ w + d)
    (h2 : w + d < 2147483648) : fetch_add_full w d = w + d := by
  unfold fetch_add_full wrap32
  omega

theorem view_writer_lock_lin (w A r : Int) (hw : w + r = 65536 * A) (hr0 : 0 ≤ r)
    (hr1 : r < 65536) (hA0 : 0 ≤ A) (hA1 : A ≤ 32767) :
    (r = 0 → view_writer_lock w = A) ∧ (1 ≤ r → view_writer_lock w = A - 1) := by
  unfold view_writer_lock wrap16
  omega

theorem view_writer_lock_ite (w A r : Int) (hw : w + r = 65536 * A) (hr0 : 0 ≤ r)
    (hr1 : r < 65536) (hA0 : 0 ≤ A) (hA1 : A ≤ 32767) :
    view_writer_lock w = if r = 0 then A else A - 1 := by
  have h := view_writer_lock_lin w A r hw hr0 hr1 hA0 hA1
  split_ifs with h0
  · exact h.1 h0
  · exact h.2 (by omega)

theorem reader_count_negative_iff (w A r : Int) (hw : w + r = 65536 * A) (hr0 : 0 ≤ r)
    (hr1 : r < 65536) : reader_count_negative w = 0 ↔ r = 0 := by
  unfold reader_count_negative wrap16
  omega

theorem bitand_mask_iff (w A r : Int) (hw : w + r = 65536 * A) (hr0 : 0 ≤ r)
    (hr1 : r < 65536) : bitand_mask w 65535 = 0 ↔ r = 0 := by
  unfold bitand_mask
  omega

theorem fetch_add_half_lin (w A r d : Int) (hw : w + r = 65536 * A) (hr0 : 0 ≤ r)
    (hr1 : r < 65536) (hd0 : 0 ≤ A + d) (hd1 : A + d ≤ 32767) :
    fetch_add_half w d = w + 65536 * d := by
  unfold fetch_add_half set_view_writer_lock view_writer_lock wrap16 wrap32
  omega

theorem set_view_writer_lock_lin (w v : Int) (h1 : -2147483648 ≤ w) (h2 : w < 2147483648)
    (hv1 : -32768 ≤ v) (hv2 : v ≤ 32767) :
    set_view_writer_lock w v = w + 65536 * (v - view_writer_lock w) := by
  unfold set_view_writer_lock view_writer_lock wrap16 wrap32
  omega

/-! ## Counting lemmas -/

theorem countP_set_of_getElem? (S : PC → Bool) :
    ∀ (l : List PC) (i : Nat) (pc x : PC), l[i]? = some pc →
      (l.set i x).countP S + (S pc).toNat = l.countP S + (S x).toNat := by
  intro l
  induction l with
  | nil => intro i pc x h; simp at h
  | cons a l ih =>
    intro i pc x h
    cases i with
    | zero =>
      simp at h
      subst h
      simp [List.countP_cons]
      cases S a <;> cases S x <;> simp
    | succ j =>
      simp at h
      have := ih j pc x h
      simp [List.countP_cons]
      omega

theorem toNat_le_countP (S : PC → Bool) :
    ∀ (l : List PC) (i : Nat) (pc : PC), l[i]? = some pc → (S pc).toNat ≤ l.countP S := by
  intro l
  induction l with
  | nil => intro i pc h; simp at h
  | cons a l ih =>
    intro i pc h
    cases i with
    | zero =>
      simp at h
      subst h
      simp [List.countP_cons]
      cases S a <;> simp
    | succ j =>
      simp at h
      have := ih j pc h
      simp [List.countP_cons]
      omega

theorem countP_set_eq_zero (S : PC → Bool) (l : List PC) (i : Nat) (x : PC)
    (h : l.countP S = 0) (hx : S x = false) : (l.set i x).countP S = 0 := by
  cases hi : l[i]? with
  | none =>
    have : l.length ≤ i := by simpa using hi
    rw [List.set_eq_of_length_le this]
    exact h
  | some pc =>
    have := countP_set_of_getElem? S l i pc x hi
    simp [hx] at this
    omega

theorem not_bad_of_getElem? (S : PC → Bool) (l : List PC) (i : Nat) (pc : PC)
    (h : l.countP S = 0) (hi : l[i]? = some pc) : S pc = false := by
  have := toNat_le_countP S l i pc hi
  cases hS : S pc
  · rfl
  · rw [hS, h] at this
    exact absurd this (by decide)

/-! ## The invariant is inductive -/

theorem writer_unlock_entry_wait_free (t : rw_spinlock_enum) (nwf : Bool)
    (hnwf : nwf = false ∨ t ≠ FAIR) :
    writer_unlock_entry t nwf = if t.val ≤ 2 then wuSub else wuLoad := by
  rcases hnwf with h | h
  · subst h
    simp [writer_unlock_entry]
  · simp [writer_unlock_entry, h]

theorem lockInv_init (grp : Bool) (t : rw_spinlock_enum) (n : Nat) (hn : n ≤ 16383) :
    LockInv grp t (initState n) := by
  have h : ∀ (S : PC → Bool), S idle = false → (List.replicate n idle).countP S = 0 := by
    intro S hS
    induction n with
    | zero => simp
    | succ k ih => simp [List.replicate_succ, List.countP_cons, hS] at ih ⊢
  simp [LockInv, initState, h, pcBad, pWWait, pWRb, pRH, pRWait, pRRb, pWH, pStore, pGW, pGH, hn]

/-! ## The invariant is inductive: one step of one thread, by family of policies -/

set_option maxHeartbeats 0 in
theorem casBase_arith (t : rw_spinlock_enum) (nwf : Bool) (b : Bool)
    (hue : writer_unlock_entry t nwf = if t.val ≤ 2 then wuSub else wuLoad)
    (htv : 2 ≤ t.val) (hs : step t = 32767)
    (pc pc1 : PC) (w w1 : Int) (len n4 n5 n6 n7 n8 : Nat)
    (n4' n5' n6' n7' n8' : Nat)
    (hr : threadStep t nwf (baseCall b) w pc = (w1, pc1))
    (b1 : pcBad false t pc = false)
    (c4 : n4' + (pRH pc).toNat = n4 + (pRH pc1).toNat)
    (c5 : n5' + (pRWait pc).toNat = n5 + (pRWait pc1).toNat)
    (c6 : n6' + (pRRb pc).toNat = n6 + (pRRb pc1).toNat)
    (c7 : n7' + (pWH pc).toNat = n7 + (pWH pc1).toNat)
    (c8 : n8' + (pStore pc).toNat = n8 + (pStore pc1).toNat)
    (l4 : n4 ≤ len) (l5 : n5 ≤ len) (l6 : n6 ≤ len) (hlen : len ≤ 16383)
    (hw : w + ((n4 : Int) + n5 + n6) = 2147418112 * ((n7 : Int) + n8))
    (ht3 : t.val ≥ 3 → n6 = 0)
    (hwin : n7 + n8 ≤ 1)
    (hex : 1 ≤ n7 + n8 → n4 = 0) (hsr : 1 ≤ n8 → 1 ≤ n5) :
    pcBad false t pc1 = false ∧
    w1 + ((n4' : Int) + n5' + n6') = 2147418112 * ((n7' : Int) + n8') ∧
    n7' + n8' ≤ 1 ∧
    (1 ≤ n7' + n8' → n4' = 0) ∧ (1 ≤ n8' → 1 ≤ n5') := by
  have hv := val_le_four t
  have F1 := fetch_add_full_lin w (-1) (by omega) (by omega)
  have F2 := fetch_add_full_lin w 1 (by omega) (by omega)
  have V := view_writer_lock_ite w (32767 * (n7 + n8)) (n4 + n5 + n6) (by omega) (by omega)
    (by omega) (by omega) (by omega)
  have S1 := set_view_writer_lock_lin w 32767 (by omega) (by omega) (by omega) (by omega)
  have S3 := set_view_writer_lock_lin w (-1) (by omega) (by omega) (by omega) (by omega)
  have H2 := fetch_add_half_lin w (32767 * (n7 + n8)) (n4 + n5 + n6) (-32767) (by omega)
    (by omega) (by omega)
  have hc : baseCall b = Call.reader ∨ baseCall b = Call.writer := by
    cases b <;> simp [baseCall]
  generalize baseCall b = c at hr hc
  by_cases hidle : pc = idle
  · subst hidle
    rcases hc with rfl | rfl <;>
      simp [threadStep, writer_lock_entry] at hr <;>
      (try split_ifs at hr) <;>
      obtain ⟨rfl, rfl⟩ := hr <;>
      simp [pRH, pRWait, pRRb, pWH, pStore] at c4 c5 c6 c7 c8 <;>
      simp [pcBad] <;>
      subst_vars <;>
      omega
  · clear hc
    cases pc <;>
    simp [pcBad] at b1 hidle <;>
    (try omega) <;>
    simp [threadStep, hue, hs, int_half_type_max_eq, writer_step_eq,
      writer_lock_entry] at hr <;>
    (try split_ifs at hr) <;>
    (try simp at hr) <;>
    obtain ⟨rfl, rfl⟩ := hr <;>
    (try simp [pRH, pRWait, pRRb, pWH, pStore] at c4 c5 c6 c7 c8) <;>
    simp [pcBad] <;>
    (try simp (disch := omega) only [F1, F2, S1, S3, H2] at *) <;>
    (try simp only [V] at *) <;>
    clear F1 F2 S1 S3 H2 V <;>
    (try split_ifs at *) <;>
    subst_vars <;>
    omega

set_option maxHeartbeats 0 in
theorem addBase_arith (t : rw_spinlock_enum) (nwf : Bool) (b : Bool)
    (hue : writer_unlock_entry t nwf = if t.val ≤ 2 then wuSub else wuLoad)
    (htv : t.val ≤ 1) (hs : step t = 1)
    (pc pc1 : PC) (w w1 : Int) (len n1 n3 n4 n6 n7 : Nat)
    (n1' n3' n4' n6' n7' : Nat)
    (hr : threadStep t nwf (baseCall b) w pc = (w1, pc1))
    (b1 : pcBad false t pc = false)
    (c1 : n1' + (pWWait pc).toNat = n1 + (pWWait pc1).toNat)
    (c3 : n3' + (pWRb pc).toNat = n3 + (pWRb pc1).toNat)
    (c4 : n4' + (pRH pc).toNat = n4 + (pRH pc1).toNat)
    (c6 : n6' + (pRRb pc).toNat = n6 + (pRRb pc1).toNat)
    (c7 : n7' + (pWH pc).toNat = n7 + (pWH pc1).toNat)
    (l3 : n3 ≤ len) (l4 : n4 ≤ len) (l6 : n6 ≤ len) (hlen : len ≤ 16383)
    (hw : w + ((n4 : Int) + n6) = 65536 * ((n1 : Int) + n7 + n3))
    (hwin : n1 + n7 ≤ 1)
    (hex : 1 ≤ n7 → n4 = 0) :
    pcBad false t pc1 = false ∧
    w1 + ((n4' : Int) + n6') = 65536 * ((n1' : Int) + n7' + n3') ∧
    n1' + n7' ≤ 1 ∧
    (1 ≤ n7' → n4' = 0) := by
  have F1 := fetch_add_full_lin w (-1) (by omega) (by omega)
  have F2 := fetch_add_full_lin w 1 (by omega) (by omega)
  have F3 := fetch_add_full_lin w 65536 (by omega) (by omega)
  have R := reader_count_negative_iff w (n1 + n7 + n3) (n4 + n6) (by omega) (by omega)
    (by omega)
  have H1 := fetch_add_half_lin w (n1 + n7 + n3) (n4 + n6) (-1) (by omega)
    (by omega) (by omega)
  have hc : baseCall b = Call.reader ∨ baseCall b = Call.writer := by
    cases b <;> simp [baseCall]
  generalize baseCall b = c at hr hc
  by_cases hidle : pc = idle
  · subst hidle
    rcases hc with rfl | rfl <;>
      simp [threadStep, writer_lock_entry] at hr <;>
      (try split_ifs at hr) <;>
      obtain ⟨rfl, rfl⟩ := hr <;>
      simp [pWWait, pWRb, pRH, pRRb, pWH] at c1 c3 c4 c6 c7 <;>
      simp [pcBad] <;>
      subst_vars <;>
      omega
  · clear hc
    cases pc <;>
    simp [pcBad] at b1 hidle <;>
    (try omega) <;>
    simp [threadStep, hue, hs, int_half_type_max_eq, writer_step_eq,
      writer_lock_entry] at hr <;>
    (try split_ifs at hr) <;>
    (try simp at hr) <;>
    obtain ⟨rfl, rfl⟩ := hr <;>
    (try simp [pWWait, pWRb, pRH, pRRb, pWH] at c1 c3 c4 c6 c7) <;>
    simp [pcBad] <;>
    (try simp (disch := omega) only [F1, F2, F3, H1] at *) <;>
    (try simp only [R] at *) <;>
    clear F1 F2 F3 H1 R <;>
    subst_vars <;>
    omega

set_option maxHeartbeats 0 in
theorem group_arith (t : rw_spinlock_enum) (nwf : Bool) (b : Bool)
    (pc pc1 : PC) (w w1 : Int) (len n4 n5 n6 n9 n10 : Nat)
    (n4' n5' n6' n9' n10' : Nat)
    (hr : threadStep t nwf (groupCall b) w pc = (w1, pc1))
    (b1 : pcBad true t pc = false)
    (c4 : n4' + (pRH pc).toNat = n4 + (pRH pc1).toNat)
    (c5 : n5' + (pRWait pc).toNat = n5 + (pRWait pc1).toNat)
    (c6 : n6' + (pRRb pc).toNat = n6 + (pRRb pc1).toNat)
    (c9 : n9' + (pGW pc).toNat = n9 + (pGW pc1).toNat)
    (c10 : n10' + (pGH pc).toNat = n10 + (pGH pc1).toNat)
    (l4 : n4 ≤ len) (l5 : n5 ≤ len) (l6 : n6 ≤ len) (l9 : n9 ≤ len) (l10 : n10 ≤ len)
    (hlen : len ≤ 16383)
    (hw : w + ((n4 : Int) + n5 + n6) = 65536 * ((n9 : Int) + n10))
    (hex : 1 ≤ n10 → n4 = 0) :
    pcBad true t pc1 = false ∧
    w1 + ((n4' : Int) + n5' + n6') = 65536 * ((n9' : Int) + n10') ∧
    (1 ≤ n10' → n4' = 0) := by
  have hv := val_le_four t
  have F1 := fetch_add_full_lin w (-1) (by omega) (by omega)
  have F2 := fetch_add_full_lin w 1 (by omega) (by omega)
  have F3 := fetch_add_full_lin w 65536 (by omega) (by omega)
  have V := view_writer_lock_ite w (n9 + n10) (n4 + n5 + n6) (by omega) (by omega)
    (by omega) (by omega) (by omega)
  have R := reader_count_negative_iff w (n9 + n10) (n4 + n5 + n6) (by omega) (by omega)
    (by omega)
  have B := bitand_mask_iff w (n9 + n10) (n4 + n5 + n6) (by omega) (by omega) (by omega)
  have H1 := fetch_add_half_lin w (n9 + n10) (n4 + n5 + n6) (-1) (by omega)
    (by omega) (by omega)
  have H3 := fetch_add_half_lin w (n9 + n10) (n4 + n5 + n6) 1 (by omega)
    (by omega) (by omega)
  have hc : groupCall b = Call.reader ∨ groupCall b = Call.writerGroup := by
    cases b <;> simp [groupCall]
  generalize groupCall b = c at hr hc
  by_cases hidle : pc = idle
  · subst hidle
    rcases hc with rfl | rfl <;>
      simp [threadStep, writer_lock_group_entry] at hr <;>
      (try split_ifs at hr) <;>
      obtain ⟨rfl, rfl⟩ := hr <;>
      simp [pGW, pGH, pRH, pRWait, pRRb] at c4 c5 c6 c9 c10 <;>
      simp [pcBad] <;>
      subst_vars <;>
      omega
  · clear hc
    cases pc <;>
    simp [pcBad] at b1 hidle <;>
    simp [threadStep, int_half_type_max_eq, writer_step_eq,
      writer_lock_group_entry] at hr <;>
    (try split_ifs at hr) <;>
    (try simp at hr) <;>
    obtain ⟨rfl, rfl⟩ := hr <;>
    (try simp [pGW, pGH, pRH, pRWait, pRRb] at c4 c5 c6 c9 c10) <;>
    simp [pcBad] <;>
    (try simp (disch := omega) only [F1, F2, F3, H1, H3] at *) <;>
    (try simp only [V, R, B] at *) <;>
    clear F1 F2 F3 H1 H3 V R B <;>
    (try split_ifs at *) <;>
    subst_vars <;>
    omega

theorem countP_eq_zero_of_imp (S T : PC → Bool) (l : List PC)
    (h : ∀ p, S p = true → T p = true) (hT : l.countP T = 0) : l.countP S = 0 := by
  rw [List.countP_eq_zero] at hT ⊢
  intro a ha hS
  exact hT a ha (h a hS)

theorem lockInv_step (grp : Bool) (t : rw_spinlock_enum) (nwf : Bool)
    (hnwf : nwf = false ∨ t ≠ FAIR) (s : SysState) (i : Nat) (b : Bool)
    (h : LockInv grp t s) : LockInv grp t (sysStep t nwf s i (callOf grp b)) := by
  unfold sysStep
  cases hpc : s.pcs[i]? with
  | none => simpa using h
  | some pc =>
    show LockInv grp t ⟨(threadStep t nwf (callOf grp b) s.word pc).1,
      s.pcs.set i (threadStep t nwf (callOf grp b) s.word pc).2⟩
    obtain ⟨hlen, hbad, hw, hwin, hex, hsr⟩ := h
    rcases hr : threadStep t nwf (callOf grp b) s.word pc with ⟨w1, pc1⟩
    have hue := writer_unlock_entry_wait_free t nwf hnwf
    have c1 := countP_set_of_getElem? pWWait s.pcs i pc pc1 hpc
    have c3 := countP_set_of_getElem? pWRb s.pcs i pc pc1 hpc
    have c4 := countP_set_of_getElem? pRH s.pcs i pc pc1 hpc
    have c5 := countP_set_of_getElem? pRWait s.pcs i pc pc1 hpc
    have c6 := countP_set_of_getElem? pRRb s.pcs i pc pc1 hpc
    have c7 := countP_set_of_getElem? pWH s.pcs i pc pc1 hpc
    have c8 := countP_set_of_getElem? pStore s.pcs i pc pc1 hpc
    have c9 := countP_set_of_getElem? pGW s.pcs i pc pc1 hpc
    have c10 := countP_set_of_getElem? pGH s.pcs i pc pc1 hpc
    have b1 := not_bad_of_getElem? (pcBad grp t) s.pcs i pc hbad hpc
    have l3 := List.countP_le_length pWRb (l := s.pcs)
    have l4 := List.countP_le_length pRH (l := s.pcs)
    have l5 := List.countP_le_length pRWait (l := s.pcs)
    have l6 := List.countP_le_length pRRb (l := s.pcs)
    have l9 := List.countP_le_length pGW (l := s.pcs)
    have l10 := List.countP_le_length pGH (l := s.pcs)
    have z := fun (S : PC → Bool) (l : List PC) (hS : ∀ p, S p = true → pcBad grp t p = true)
      (hl : l.countP (pcBad grp t) = 0) => countP_eq_zero_of_imp S (pcBad grp t) l hS hl
    simp only [LockInv, List.length_set]
    refine ⟨hlen, ?_⟩
    suffices hs : pcBad grp t pc1 = false ∧ _ from
      ⟨countP_set_eq_zero _ _ _ _ hbad hs.1, hs.2⟩
    cases grp
    · have hr' : threadStep t nwf (baseCall b) s.word pc = (w1, pc1) := by
        simpa [callOf] using hr
      have z9 := z pGW s.pcs (by intro p hp; cases p <;> simp [pGW, pcBad] at hp ⊢) hbad
      have z10 := z pGH s.pcs (by intro p hp; cases p <;> simp [pGH, pcBad] at hp ⊢) hbad
      rcases step_cases t with ⟨htv, hs⟩ | ⟨htv, hs⟩
      · have z5 := z pRWait s.pcs
          (by intro p hp; cases p <;> simp [pRWait, pcBad] at hp ⊢; omega) hbad
        have z8 := z pStore s.pcs
          (by intro p hp; cases p <;> simp [pStore, pcBad] at hp ⊢; omega) hbad
        rw [hs, z5, z8, z9, z10] at hw
        rw [z8] at hwin
        rw [z8, z10] at hex
        obtain ⟨hb, hw', hwin', hex'⟩ := addBase_arith t nwf b hue htv hs pc pc1 s.word w1
          s.pcs.length _ _ _ _ _ _ _ _ _ _ hr' b1 c1 c3 c4 c6 c7 l3 l4 l6 hlen
          (by simpa using hw) (by simpa using hwin) (by simpa using hex)
        have hbad' := countP_set_eq_zero _ s.pcs i pc1 hbad hb
        have z9' := z pGW _ (by intro p hp; cases p <;> simp [pGW, pcBad] at hp ⊢) hbad'
        have z10' := z pGH _ (by intro p hp; cases p <;> simp [pGH, pcBad] at hp ⊢) hbad'
        have z5' := z pRWait _
          (by intro p hp; cases p <;> simp [pRWait, pcBad] at hp ⊢; omega) hbad'
        have z8' := z pStore _
          (by intro p hp; cases p <;> simp [pStore, pcBad] at hp ⊢; omega) hbad'
        rw [hs, z5', z8', z9', z10']
        refine ⟨hb, ?_, ?_, ?_, ?_⟩
        · simpa using hw'
        · simpa using hwin'
        · simpa using hex'
        · simp
      · have z1 := z pWWait s.pcs
          (by intro p hp; cases p <;> simp [pWWait, pcBad] at hp ⊢; omega) hbad
        have z3 := z pWRb s.pcs
          (by intro p hp; cases p <;> simp [pWRb, pcBad] at hp ⊢; omega) hbad
        have z6 : t.val ≥ 3 → s.pcs.countP pRRb = 0 := fun h3 => z pRRb s.pcs
          (by intro p hp; cases p <;> simp [pRRb, pcBad] at hp ⊢; omega) hbad
        rw [hs, z1, z3, z9, z10] at hw
        rw [z1] at hwin
        rw [z10] at hex
        obtain ⟨hb, hw', hwin', hex', hsr'⟩ := casBase_arith t nwf b hue htv hs pc pc1 s.word
          w1 s.pcs.length _ _ _ _ _ _ _ _ _ _ hr' b1 c4 c5 c6 c7 c8 l4 l5 l6 hlen
          (by omega) z6 (by omega) (by omega) hsr
        have hbad' := countP_set_eq_zero _ s.pcs i pc1 hbad hb
        have z9' := z pGW _ (by intro p hp; cases p <;> simp [pGW, pcBad] at hp ⊢) hbad'
        have z10' := z pGH _ (by intro p hp; cases p <;> simp [pGH, pcBad] at hp ⊢) hbad'
        have z1' := z pWWait _
          (by intro p hp; cases p <;> simp [pWWait, pcBad] at hp ⊢; omega) hbad'
        have z3' := z pWRb _
          (by intro p hp; cases p <;> simp [pWRb, pcBad] at hp ⊢; omega) hbad'
        rw [hs, z1', z3', z9', z10']
        exact ⟨hb, by omega, by omega, by omega, hsr'⟩
    · have hr' : threadStep t nwf (groupCall b) s.word pc = (w1, pc1) := by
        simpa [callOf] using hr
      have z1 := z pWWait s.pcs (by intro p hp; cases p <;> simp [pWWait, pcBad] at hp ⊢) hbad
      have z3 := z pWRb s.pcs (by intro p hp; cases p <;> simp [pWRb, pcBad] at hp ⊢) hbad
      have z7 := z pWH s.pcs (by intro p hp; cases p <;> simp [pWH, pcBad] at hp ⊢) hbad
      have z8 := z pStore s.pcs (by intro p hp; cases p <;> simp [pStore, pcBad] at hp ⊢) hbad
      rw [z1, z3, z7, z8] at hw
      rw [z7, z8] at hex
      obtain ⟨hb, hw', hex'⟩ := group_arith t nwf b pc pc1 s.word w1 s.pcs.length
        _ _ _ _ _ _ _ _ _ _ hr' b1 c4 c5 c6 c9 c10 l4 l5 l6 l9 l10 hlen
        (by simpa using hw) (by simpa using hex)
      have hbad' := countP_set_eq_zero _ s.pcs i pc1 hbad hb
      have z1' := z pWWait _ (by intro p hp; cases p <;> simp [pWWait, pcBad] at hp ⊢) hbad'
      have z3' := z pWRb _ (by intro p hp; cases p <;> simp [pWRb, pcBad] at hp ⊢) hbad'
      have z7' := z pWH _ (by intro p hp; cases p <;> simp [pWH, pcBad] at hp ⊢) hbad'
      have z8' := z pStore _ (by intro p hp; cases p <;> simp [pStore, pcBad] at hp ⊢) hbad'
      rw [z1', z3', z7', z8']
      refine ⟨hb, ?_, ?_, ?_, ?_⟩
      · simpa using hw'
      · simp
      · simpa using hex'
      · simp

theorem callOf_false : callOf false = baseCall := by
  funext b
  simp [callOf]

theorem callOf_true : callOf true = groupCall := by
  funext b
  simp [callOf]

theorem lockInv_run (grp : Bool) (t : rw_spinlock_enum) (nwf : Bool)
    (hnwf : nwf = false ∨ t ≠ FAIR) (sched : List (Nat × Bool)) :
    ∀ s : SysState, LockInv grp t s → LockInv grp t (sysRun t nwf (callOf grp) sched s) := by
  induction sched with
  | nil => intro s h; exact h
  | cons a rest ih =>
    intro s h
    exact ih _ (lockInv_step grp t nwf hnwf s a.1 a.2 h)

theorem one_le_countP (S : PC → Bool) (l : List PC) (i : Nat) (pc : PC)
    (hi : l[i]? = some pc) (hS : S pc = true) : 1 ≤ l.countP S := by
  have := toNat_le_countP S l i pc hi
  simpa [hS] using this

theorem two_le_countP (S : PC → Bool) (hidle : S idle = false) (l : List PC) (i j : Nat)
    (a b : PC) (hij : i ≠ j) (hi : l[i]? = some a) (hj : l[j]? = some b)
    (ha : S a = true) (hb : S b = true) : 2 ≤ l.countP S := by
  have h1 := countP_set_of_getElem? S l i a idle hi
  have hj' : (l.set i idle)[j]? = some b := by
    rw [List.getElem?_set_ne hij]
    exact hj
  have h2 := one_le_countP S (l.set i idle) j b hj' hb
  simp [ha, hidle] at h1
  omega

/-! ## The claims -/

/-- C1. Mutual exclusion of the base lock: from word 0, whatever the schedule of the
atomic steps of at most 16383 threads running reader and writer rounds (`writer_unlock`
with its default argument), no two threads are in a writer critical section and no
thread is in a reader critical section while another is in a writer critical section;
for each of the five policies. -/
theorem base_mutual_exclusion (t : rw_spinlock_enum) (n : Nat) (hn : n ≤ 16383)
    (sched : List (Nat × Bool)) (i j : Nat) :
    ¬ twoWriters (sysRun t false baseCall sched (initState n)) i j ∧
      ¬ readerAndWriter (sysRun t false baseCall sched (initState n)) i j := by
  have h := lockInv_run false t false (Or.inl rfl) sched _ (lockInv_init false t n hn)
  rw [callOf_false] at h
  obtain ⟨-, -, -, hwin, hex, -⟩ := h
  constructor
  · rintro ⟨hij, hi, hj⟩
    have := two_le_countP pWH rfl _ i j _ _ hij hi hj rfl rfl
    omega
  · rintro ⟨hi, hj⟩
    have h1 := one_le_countP pRH _ i _ hi rfl
    have h2 := one_le_countP pWH _ j _ hj rfl
    omega

theorem base_mutual_exclusion_witness :
    ¬ twoWriters (sysRun FAIR false baseCall
        [(0, true), (0, true), (0, true), (1, true), (1, true), (1, true)] (initState 2)) 0 1 ∧
      ¬ readerAndWriter (sysRun FAIR false baseCall
        [(0, true), (0, true), (0, true), (1, true), (1, true), (1, true)] (initState 2)) 0 1 :=
  base_mutual_exclusion FAIR 2 (by decide) _ 0 1

/-- C2. Group exclusion: from word 0, whatever the schedule of the atomic steps of at
most 16383 threads running reader rounds and group-writer rounds, no thread is in a
reader critical section while another is in a group-writer critical section; for each
of the five policies. -/
theorem group_exclusion (t : rw_spinlock_enum) (n : Nat) (hn : n ≤ 16383)
    (sched : List (Nat × Bool)) (i j : Nat) :
    ¬ readerAndGroupWriter (sysRun t false groupCall sched (initState n)) i j := by
  have h := lockInv_run true t false (Or.inl rfl) sched _ (lockInv_init true t n hn)
  rw [callOf_true] at h
  obtain ⟨-, -, -, -, hex, -⟩ := h
  rintro ⟨hi, hj⟩
  have h1 := one_le_countP pRH _ i _ hi rfl
  have h2 := one_le_countP pGH _ j _ hj rfl
  omega

theorem group_exclusion_witness :
    ¬ readerAndGroupWriter (sysRun FAIR false groupCall
        [(0, true), (0, true), (0, true), (1, false), (1, false), (1, false)] (initState 2)) 1 0 :=
  group_exclusion FAIR 2 (by decide) _ 1 0

/-! ## Calls run by one thread alone -/

theorem repeatCall_fixed (f : Int → Option Int) (w : Int) (h : f w = some w) (m : Nat) :
    repeatCall f m w = some w := by
  induction m with
  | zero => rfl
  | succ k ih => simp [repeatCall, h, ih]

/-- C3. Writer round trip: for each policy and both values of the argument of
`writer_unlock`, on the word 0 `writer_lock()` returns after the two operations of its
loop-free path, the following `writer_unlock` returns within two operations (no room
for a repeated loop test) and leaves the word 0; any number of such pairs in sequence
leaves the word 0. -/
theorem writer_round_trip (t : rw_spinlock_enum) (nwf : Bool) (m : Nat) :
    writer_lock t 2 0 = some (65536 * step t) ∧
      writer_unlock t nwf 2 (65536 * step t) = some 0 ∧
      repeatCall (fun w => (writer_lock t 2 w).bind (writer_unlock t nwf 2)) m 0 = some 0 := by
  have h1 : writer_lock t 2 0 = some (65536 * step t) := by
    cases t <;> decide
  have h2 : writer_unlock t nwf 2 (65536 * step t) = some 0 := by
    cases t <;> cases nwf <;> decide
  refine ⟨h1, h2, repeatCall_fixed _ 0 ?_ m⟩
  simp [h1, h2]

theorem reader_lock_first_try (t : rw_spinlock_enum) (w : Int) (h0 : w ≤ 0)
    (h1 : -2147483648 ≤ w - 1) : reader_lock t 2 w = some (w - 1) := by
  have hc : ¬ (t.val < READER_FIRST.val ∧ w > 0) := by omega
  have hw : ¬ (w > 0) := by omega
  have hf : fetch_add_full w (-1) = w - 1 := by
    rw [fetch_add_full_lin w (-1) (by omega) (by omega)]
    rfl
  simp [reader_lock, runCall, threadStep, hc, hw, hf]

theorem reader_unlock_one (t : rw_spinlock_enum) (w : Int) (h0 : -2147483648 ≤ w + 1)
    (h1 : w + 1 < 2147483648) : reader_unlock t 1 w = some (w + 1) := by
  simp [reader_unlock, runCall, threadStep, fetch_add_full_lin w 1 h0 h1]

theorem repeat_reader_lock (t : rw_spinlock_enum) (n : Nat) :
    ∀ w : Int, w ≤ 0 → -2147483648 ≤ w - n →
      repeatCall (reader_lock t 2) n w = some (w - n) := by
  induction n with
  | zero => intro w _ _; simp [repeatCall]
  | succ k ih =>
    intro w h0 h1
    have h := reader_lock_first_try t w h0 (by omega)
    have h' := ih (w - 1) (by omega) (by omega)
    simp only [repeatCall, h, Option.some_bind, h']
    exact congrArg some (by push_cast; omega)

theorem repeat_reader_unlock (t : rw_spinlock_enum) (n : Nat) :
    ∀ w : Int, -2147483648 ≤ w → w + n < 2147483648 →
      repeatCall (reader_unlock t 1) n w = some (w + n) := by
  induction n with
  | zero => intro w _ _; simp [repeatCall]
  | succ k ih =>
    intro w h0 h1
    have h := reader_unlock_one t w (by omega) (by omega)
    have h' := ih (w + 1) (by omega) (by omega)
    simp only [repeatCall, h, Option.some_bind, h']
    exact congrArg some (by push_cast; omega)

/-- C4. Reader concurrency and round trip: for each policy and 1 <= n <= 16383, from the
word 0 and with no writer, `n` successive `reader_lock()` calls each return after the two
operations of the first loop iteration (pre-check and decrement; no rollback, no wait),
the word is then -n with reader half -n and writer half -1, and `n` calls of
`reader_unlock()` (one operation each) bring the word back to 0. -/
theorem reader_concurrency (t : rw_spinlock_enum) (n : Nat) (h1 : 1 ≤ n)
    (hn : n ≤ 16383) :
    repeatCall (reader_lock t 2) n 0 = some (-(n : Int)) ∧
      reader_count_negative (-(n : Int)) = -(n : Int) ∧
      view_writer_lock (-(n : Int)) = -1 ∧
      repeatCall (reader_unlock t 1) n (-(n : Int)) = some 0 := by
  refine ⟨?_, ?_, ?_, ?_⟩
  · have := repeat_reader_lock t n 0 (by omega) (by omega)
    simpa using this
  · unfold reader_count_negative wrap16
    omega
  · unfold view_writer_lock wrap16
    omega
  · have := repeat_reader_unlock t n (-(n : Int)) (by omega) (by omega)
    simpa using this

theorem reader_concurrency_witness :
    repeatCall (reader_lock FAIR 2) 3 0 = some (-((3 : Nat) : Int)) ∧
      reader_count_negative (-((3 : Nat) : Int)) = -((3 : Nat) : Int) ∧
      view_writer_lock (-((3 : Nat) : Int)) = -1 ∧
      repeatCall (reader_unlock FAIR 1) 3 (-((3 : Nat) : Int)) = some 0 :=
  reader_concurrency FAIR 3 (by decide) (by decide)

theorem writer_lock_group_first_try (t : rw_spinlock_enum) (w j : Int) (hw : w = 65536 * j)
    (h0 : 0 ≤ j) (h1 : j ≤ 16382) :
    writer_lock_group t (if t.val ≤ WRITER_PRIOR.val then 3 else 2) w = some (w + 65536) := by
  have hlo : reader_count_negative w = 0 :=
    (reader_count_negative_iff w j 0 (by omega) (by omega) (by omega)).2 rfl
  have hand : bitand_mask w (writer_step - 1) = 0 := by
    rw [writer_step_eq]
    exact (bitand_mask_iff w j 0 (by omega) (by omega) (by omega)).2 rfl
  have hh : fetch_add_half w 1 = w + 65536 := by
    rw [fetch_add_half_lin w j 0 1 (by omega) (by omega) (by omega) (by omega) (by omega)]
    rfl
  have hf : fetch_add_full w writer_step = w + 65536 := by
    rw [writer_step_eq, fetch_add_full_lin w 65536 (by omega) (by omega)]
  have hlo' : reader_count_negative (w + 65536) = 0 :=
    (reader_count_negative_iff (w + 65536) (j + 1) 0 (by omega) (by omega) (by omega)).2 rfl
  cases t <;>
    simp [writer_lock_group, writer_lock_group_entry, runCall, threadStep, hlo, hand, hh, hf,
      hlo']

theorem writer_unlock_group_one (t : rw_spinlock_enum) (w j : Int) (hw : w = 65536 * j)
    (h0 : 1 ≤ j) (h1 : j ≤ 16383) : writer_unlock_group t 1 w = some (w - 65536) := by
  have hh : fetch_add_half w (-1) = w - 65536 := by
    rw [fetch_add_half_lin w j 0 (-1) (by omega) (by omega) (by omega) (by omega) (by omega)]
    rfl
  simp [writer_unlock_group, runCall, threadStep, hh]

theorem repeat_writer_lock_group (t : rw_spinlock_enum) (k : Nat) :
    ∀ j : Int, 0 ≤ j → j + k ≤ 16383 →
      repeatCall (writer_lock_group t (if t.val ≤ WRITER_PRIOR.val then 3 else 2)) k (65536 * j)
        = some (65536 * (j + k)) := by
  induction k with
  | zero => intro j _ _; simp [repeatCall]
  | succ k ih =>
    intro j h0 h1
    have h := writer_lock_group_first_try t (65536 * j) j rfl h0 (by omega)
    have h' := ih (j + 1) (by omega) (by omega)
    have e : 65536 * j + 65536 = 65536 * (j + 1) := by omega
    rw [e] at h
    simp only [repeatCall, h, Option.some_bind, h']
    exact congrArg some (by push_cast; omega)

theorem repeat_writer_unlock_group (t : rw_spinlock_enum) (k : Nat) :
    ∀ j : Int, 0 ≤ j → j + k ≤ 16383 →
      repeatCall (writer_unlock_group t 1) k (65536 * (j + k)) = some (65536 * j) := by
  induction k with
  | zero => intro j _ _; simp [repeatCall]
  | succ k ih =>
    intro j h0 h1
    have h := writer_unlock_group_one t (65536 * (j + (k + 1 : Nat))) (j + (k + 1 : Nat)) rfl
      (by omega) (by omega)
    have h' := ih j h0 (by omega)
    have e : 65536 * (j + ((k + 1 : Nat) : Int)) - 65536 = 65536 * (j + k) := by
      push_cast
      omega
    rw [e] at h
    simp only [repeatCall, h, Option.some_bind, h']

/-- C5. Group writers coexist: for each policy and 1 <= k <= 16383, from the word 0 and
with no reader, `k` successive `writer_lock_group()` calls each return after the
operations of the loop-free path (three for WRITER_FIRST and WRITER_PRIOR, two for the
other policies: no repeated loop test, no rollback), the word is then k * 65536 with
writer half k and reader half 0, and `k` calls of `writer_unlock_group()` (one operation
each) bring the word back to 0. -/
theorem group_writers_coexist (t : rw_spinlock_enum) (k : Nat) (h1 : 1 ≤ k)
    (hk : k ≤ 16383) :
    repeatCall (writer_lock_group t (if t.val ≤ WRITER_PRIOR.val then 3 else 2)) k 0
        = some ((k : Int) * 65536) ∧
      view_writer_lock ((k : Int) * 65536) = k ∧
      reader_count_negative ((k : Int) * 65536) = 0 ∧
      repeatCall (writer_unlock_group t 1) k ((k : Int) * 65536) = some 0 := by
  refine ⟨?_, ?_, ?_, ?_⟩
  · have := repeat_writer_lock_group t k 0 (by omega) (by omega)
    simpa [mul_comm] using this
  · unfold view_writer_lock wrap16
    omega
  · unfold reader_count_negative wrap16
    omega
  · have := repeat_writer_unlock_group t k 0 (by omega) (by omega)
    simpa [mul_comm] using this

theorem group_writers_coexist_witness :
    repeatCall (writer_lock_group FAIR (if FAIR.val ≤ WRITER_PRIOR.val then 3 else 2)) 2 0
        = some (((2 : Nat) : Int) * 65536) ∧
      view_writer_lock (((2 : Nat) : Int) * 65536) = (2 : Nat) ∧
      reader_count_negative (((2 : Nat) : Int) * 65536) = 0 ∧
      repeatCall (writer_unlock_group FAIR 1) 2 (((2 : Nat) : Int) * 65536) = some 0 :=
  group_writers_coexist FAIR 2 (by decide) (by decide)

/-! ## Calls that do not return -/

theorem runCall_stuck (t : rw_spinlock_enum) (nwf : Bool) (exit : PC → Bool) (w : Int)
    (pc : PC) (hexit : exit pc = false)
    (hstep : threadStep t nwf Call.reader w pc = (w, pc)) :
    ∀ fuel, runCall t nwf exit fuel w pc = none := by
  intro fuel
  induction fuel with
  | zero => simp [runCall, hexit]
  | succ k ih => simp [runCall, hexit, hstep, ih]

theorem runCall_none_of_next (t : rw_spinlock_enum) (nwf : Bool) (exit : PC → Bool)
    (w : Int) (pc : PC) (hexit : exit pc = false)
    (hnext : ∀ fuel, runCall t nwf exit fuel (threadStep t nwf Call.reader w pc).1
      (threadStep t nwf Call.reader w pc).2 = none) :
    ∀ fuel, runCall t nwf exit fuel w pc = none := by
  intro fuel
  cases fuel with
  | zero => simp [runCall, hexit]
  | succ k => simp [runCall, hexit, hnext k]

/-- C6. A held writer lock blocks every other acquirer: for each policy, the
uncontended `writer_lock()` from 0 leaves the word 0x00010000 (WRITER_FIRST,
WRITER_PRIOR) or 0x7FFF0000 (FAIR, READER_PRIOR, READER_FIRST); on that word, with no
`writer_unlock`, neither `reader_lock()` nor a second `writer_lock()` returns, however
many steps it takes. -/
theorem held_writer_blocks (t : rw_spinlock_enum) (fuel : Nat) :
    writer_lock t 2 0 = some (if t.val ≤ WRITER_PRIOR.val then 65536 else 2147418112) ∧
      reader_lock t fuel (if t.val ≤ WRITER_PRIOR.val then 65536 else 2147418112) = none ∧
      writer_lock t fuel (if t.val ≤ WRITER_PRIOR.val then 65536 else 2147418112) = none := by
  refine ⟨by cases t <;> decide, ?_, ?_⟩
  · cases t
    case READER_FIRST =>
      exact runCall_none_of_next _ _ _ _ _ (by decide)
        (runCall_none_of_next _ _ _ _ _ (by decide)
          (runCall_stuck _ _ _ _ _ (by decide) (by decide))) fuel
    all_goals exact runCall_stuck _ _ _ _ _ (by decide) (by decide) fuel
  · cases t <;> exact runCall_stuck _ _ _ _ _ (by decide) (by decide) fuel

/-! ## Calls running against the releases of other threads -/

theorem runAgainst_append (t : rw_spinlock_enum) (nwf : Bool) (exit : PC → Bool)
    (env : Int → Int) (l1 l2 : List Bool) :
    ∀ s, runAgainst t nwf exit env (l1 ++ l2) s
      = runAgainst t nwf exit env l2 (runAgainst t nwf exit env l1 s) := by
  induction l1 with
  | nil => intro s; rfl
  | cons a rest ih =>
    intro s
    cases a <;> simp [runAgainst, ih]

theorem writerWaitInv_own (t : rw_spinlock_enum) (m : Int) (w : Int) (pc : PC)
    (hm0 : 0 ≤ m) (hm1 : m ≤ 16383) (h : WriterWaitInv t m (w, pc)) :
    WriterWaitInv t m (callStep t false (fun pc => pc == wHold) (w, pc)) := by
  have hv := val_le_four t
  have V : view_writer_lock (-m) = if m = 0 then 0 else -1 := by
    rw [view_writer_lock_ite (-m) 0 m (by omega) hm0 (by omega) (by omega) (by omega)]
    simp
  have R : reader_count_negative (65536 - m) = 0 ↔ m = 0 :=
    reader_count_negative_iff (65536 - m) 1 m (by omega) hm0 (by omega)
  have F : fetch_add_full (-m) 65536 = 65536 - m := by
    rw [fetch_add_full_lin (-m) 65536 (by omega) (by omega)]
    omega
  cases pc <;> simp [WriterWaitInv] at h <;>
    simp [callStep, threadStep, writer_step_eq, int_half_type_max_eq]
  case wlSpin =>
    obtain ⟨h1, rfl⟩ := h
    rw [V]
    by_cases hm : m = 0 <;> simp [hm, WriterWaitInv, h1]
  case wlCas =>
    obtain ⟨h1, rfl, rfl⟩ := h
    have : view_writer_lock 0 = 0 := by decide
    simp [this, WriterWaitInv]
    decide
  case wlCheck =>
    obtain ⟨h1, rfl⟩ := h
    by_cases ht : t = WRITER_FIRST
    · have : ¬ (0 < -m) := by omega
      simp [ht, this, WriterWaitInv]
    · by_cases hm : m = 0 <;> simp [ht, hm, WriterWaitInv, h1]
  case wlAdd =>
    obtain ⟨h1, rfl, h2⟩ := h
    rw [F]
    by_cases hm : m = 0
    · subst hm
      simp [WriterWaitInv]
      decide
    · have : -m < 0 := by omega
      simp [hm, this, WriterWaitInv]
  case wlWaitReaders =>
    subst h
    by_cases hm : m = 0
    · have e : reader_count_negative (65536 - m) = 0 := R.2 hm
      simp [e, hm, WriterWaitInv]
      simpa [hm] using e
    · simp [R, hm, WriterWaitInv]
  case wHold =>
    simpa [WriterWaitInv] using h


theorem writerWaitInv_env (t : rw_spinlock_enum) (m : Int) (w : Int) (pc : PC)
    (hm0 : 1 ≤ m) (hm1 : m ≤ 16383) (h : WriterWaitInv t m (w, pc)) :
    WriterWaitInv t (m - 1) (reader_unlock_op w, pc) := by
  have F : reader_unlock_op w = w + 1 := by
    unfold reader_unlock_op
    cases pc <;> simp [WriterWaitInv] at h <;>
      exact fetch_add_full_lin w 1 (by omega) (by omega)
  rw [F]
  by_cases ht : t = WRITER_FIRST <;>
    cases pc <;> simp [WriterWaitInv, ht] at h ⊢ <;> omega

theorem writerWaitInv_run (t : rw_spinlock_enum) (sched : List Bool) :
    ∀ (m : Int) (s : Int × PC), (sched.count false : Int) ≤ m → m ≤ 16383 →
      WriterWaitInv t m s →
      WriterWaitInv t (m - sched.count false)
        (runAgainst t false (fun pc => pc == wHold) reader_unlock_op sched s) := by
  induction sched with
  | nil => intro m s _ _ h; simpa [runAgainst] using h
  | cons a rest ih =>
    intro m s hc hm h
    cases a
    · simp only [List.count_cons_self, Nat.cast_add, Nat.cast_one] at hc ⊢
      have h' := writerWaitInv_env t m s.1 s.2 (by omega) hm h
      have := ih (m - 1) (reader_unlock_op s.1, s.2) (by omega) (by omega) h'
      simp only [runAgainst]
      have e : m - (↑(List.count false rest) + 1) = m - 1 - ↑(List.count false rest) := by
        omega
      rw [e]
      exact this
    · have hne : (true == false) = false := rfl
      simp only [List.count_cons, hne] at hc ⊢
      simp only [Bool.false_eq_true, if_false, Nat.add_zero] at hc ⊢
      have h' := writerWaitInv_own t m s.1 s.2 (by omega) hm h
      exact ih m _ hc hm h'

theorem runCall_some_runAgainst (t : rw_spinlock_enum) (nwf : Bool) (exit : PC → Bool)
    (env : Int → Int) (fuel : Nat) :
    ∀ (w : Int) (pc : PC) (w1 : Int), runCall t nwf exit fuel w pc = some w1 →
      ∃ pc1, exit pc1 = true ∧
        runAgainst t nwf exit env (List.replicate fuel true) (w, pc) = (w1, pc1) := by
  induction fuel with
  | zero =>
    intro w pc w1 h
    by_cases he : exit pc = true
    · simp [runCall, he] at h
      exact ⟨pc, he, by simp [runAgainst, h]⟩
    · simp [runCall, he] at h
  | succ k ih =>
    intro w pc w1 h
    by_cases he : exit pc = true
    · simp [runCall, he] at h
      subst h
      refine ⟨pc, he, ?_⟩
      have hstay : ∀ n : Nat, runAgainst t nwf exit env (List.replicate n true) (w, pc)
          = (w, pc) := by
        intro n
        induction n with
        | zero => rfl
        | succ j ihj => simp [List.replicate_succ, runAgainst, callStep, he, ihj]
      exact hstay (k + 1)
    · simp [runCall, he] at h
      obtain ⟨pc1, hp, hrun⟩ := ih _ _ _ h
      refine ⟨pc1, hp, ?_⟩
      simp [List.replicate_succ, runAgainst, callStep, he, hrun]

theorem writerWaitInv_finish (t : rw_spinlock_enum) (s : Int × PC)
    (h : WriterWaitInv t 0 s) :
    (runAgainst t false (fun pc => pc == wHold) reader_unlock_op [true, true, true] s).2
      = wHold := by
  obtain ⟨w, pc⟩ := s
  cases pc <;> simp [WriterWaitInv] at h
  case wlSpin => obtain ⟨-, rfl⟩ := h; cases t <;> decide
  case wlCas => obtain ⟨-, rfl⟩ := h; cases t <;> decide
  case wlCheck => obtain ⟨-, rfl⟩ := h; cases t <;> decide
  case wlAdd => obtain ⟨-, rfl⟩ := h; cases t <;> decide
  case wlWaitReaders => subst h; cases t <;> decide
  case wHold => simp [runAgainst, callStep]

/-- C7. Held reader locks block a writer: for each policy and 1 <= r <= 16383, on the
word -r left by `r` uncontended `reader_lock()` calls, `writer_lock()` does not return
however many steps it takes while no reader unlocks; run against the readers' unlocks
in any interleaving, it has returned only when all `r` readers have unlocked and the
reader half is 0; and once they have, it returns within three steps. -/
theorem held_readers_block_writer (t : rw_spinlock_enum) (r : Nat) (h1 : 1 ≤ r)
    (hr : r ≤ 16383) (fuel : Nat) (sched : List Bool) (hs : sched.count false ≤ r) :
    repeatCall (reader_lock t 2) r 0 = some (-(r : Int)) ∧
      writer_lock t fuel (-(r : Int)) = none ∧
      ((runAgainst t false (fun pc => pc == wHold) reader_unlock_op sched
          (-(r : Int), writer_lock_entry t)).2 = wHold →
        sched.count false = r ∧
        reader_count_negative (runAgainst t false (fun pc => pc == wHold) reader_unlock_op
          sched (-(r : Int), writer_lock_entry t)).1 = 0) ∧
      (sched.count false = r →
        (runAgainst t false (fun pc => pc == wHold) reader_unlock_op
          (sched ++ [true, true, true]) (-(r : Int), writer_lock_entry t)).2 = wHold) := by
  have hinit : WriterWaitInv t r (-(r : Int), writer_lock_entry t) := by
    unfold writer_lock_entry
    simp only [val_WRITER_PRIOR]
    split_ifs with h <;> simp [WriterWaitInv] <;> omega
  have hret : ∀ (l : List Bool), l.count false ≤ r →
      (runAgainst t false (fun pc => pc == wHold) reader_unlock_op l
          (-(r : Int), writer_lock_entry t)).2 = wHold →
        l.count false = r ∧
        reader_count_negative (runAgainst t false (fun pc => pc == wHold) reader_unlock_op
          l (-(r : Int), writer_lock_entry t)).1 = 0 := by
    intro l hl hpc
    have hinv := writerWaitInv_run t l r _ (by exact_mod_cast hl) (by exact_mod_cast hr) hinit
    rcases hrun : runAgainst t false (fun pc => pc == wHold) reader_unlock_op l
      (-(r : Int), writer_lock_entry t) with ⟨w, pc⟩
    rw [hrun] at hinv hpc
    simp only at hpc
    subst hpc
    simp only [WriterWaitInv] at hinv
    exact ⟨by omega, hinv.2⟩
  refine ⟨?_, ?_, hret sched hs, ?_⟩
  · have := repeat_reader_lock t r 0 (by omega) (by omega)
    simpa using this
  · cases hwl : writer_lock t fuel (-(r : Int)) with
    | none => rfl
    | some w1 =>
      exfalso
      obtain ⟨pc1, hp, hrun⟩ := runCall_some_runAgainst t false (fun pc => pc == wHold)
        reader_unlock_op fuel _ _ _ hwl
      have hp' : pc1 = wHold := by simpa using hp
      have hc : (List.replicate fuel true).count false = 0 := by
        simp [List.count_replicate]
      have := hret (List.replicate fuel true) (by omega) (by rw [hrun]; exact hp')
      omega
  · intro hc
    have hinv := writerWaitInv_run t sched r _ (by exact_mod_cast hs) (by exact_mod_cast hr)
      hinit
    rw [hc, sub_self] at hinv
    rw [runAgainst_append]
    exact writerWaitInv_finish t _ hinv

theorem held_readers_block_writer_witness :
    repeatCall (reader_lock FAIR 2) 2 0 = some (-((2 : Nat) : Int)) ∧
      writer_lock FAIR 5 (-((2 : Nat) : Int)) = none ∧
      ((runAgainst FAIR false (fun pc => pc == wHold) reader_unlock_op
          [true, false, true, false, true, true]
          (-((2 : Nat) : Int), writer_lock_entry FAIR)).2 = wHold →
        [true, false, true, false, true, true].count false = 2 ∧
        reader_count_negative (runAgainst FAIR false (fun pc => pc == wHold) reader_unlock_op
          [true, false, true, false, true, true]
          (-((2 : Nat) : Int), writer_lock_entry FAIR)).1 = 0) ∧
      ([true, false, true, false, true, true].count false = 2 →
        (runAgainst FAIR false (fun pc => pc == wHold) reader_unlock_op
          ([true, false, true, false, true, true] ++ [true, true, true])
          (-((2 : Nat) : Int), writer_lock_entry FAIR)).2 = wHold) :=
  held_readers_block_writer FAIR 2 (by decide) (by decide) 5
    [true, false, true, false, true, true] (by decide)

theorem readerWaitInv_own (t : rw_spinlock_enum) (m : Int) (w : Int) (pc : PC)
    (hm0 : 0 ≤ m) (hm1 : m ≤ 16383) (h : ReaderWaitInv t m (w, pc)) :
    ReaderWaitInv t m (callStep t false (fun pc => pc == rHold) (w, pc)) := by
  have hv := val_le_four t
  cases pc <;> simp [ReaderWaitInv] at h <;> simp [callStep, threadStep]
  case rlCheck =>
    subst h
    by_cases hc : t.val < 4 ∧ 0 < 65536 * m
    · simp [hc, ReaderWaitInv]
    · simp only [hc, if_false, ReaderWaitInv, val_READER_FIRST, true_and]
      intro h4
      omega
  case rlSub =>
    obtain ⟨rfl, h4⟩ := h
    have F : fetch_add_full (65536 * m) (-1) = 65536 * m - 1 := by
      rw [fetch_add_full_lin _ (-1) (by omega) (by omega)]
      rfl
    rw [F]
    by_cases hm : 0 < 65536 * m
    · have h3 : ¬ t.val < 3 := by omega
      simp [hm, h3, ReaderWaitInv]
    · have : m = 0 := by omega
      subst this
      simp [ReaderWaitInv]
  case rlWait =>
    subst h
    have V : view_writer_lock (65536 * m - 1) = m - 1 := by
      rw [view_writer_lock_ite (65536 * m - 1) m 1 (by omega) (by omega) (by omega) hm0
        (by omega)]
      simp
    rw [V]
    by_cases hm : 0 ≤ m - 1
    · simp [hm, ReaderWaitInv]
    · have : m = 0 := by omega
      subst this
      simp [ReaderWaitInv]
  case rHold =>
    simpa [ReaderWaitInv] using h

theorem readerWaitInv_env (t : rw_spinlock_enum) (m : Int) (w : Int) (pc : PC)
    (hm0 : 1 ≤ m) (hm1 : m ≤ 16383) (h : ReaderWaitInv t m (w, pc)) :
    ReaderWaitInv t (m - 1) (writer_unlock_group_op w, pc) := by
  cases pc <;> simp [ReaderWaitInv] at h
  case rlCheck =>
    subst h
    have F : writer_unlock_group_op (65536 * m) = 65536 * (m - 1) := by
      unfold writer_unlock_group_op
      rw [fetch_add_half_lin _ m 0 (-1) (by omega) (by omega) (by omega) (by omega) (by omega)]
      omega
    simp [ReaderWaitInv, F]
  case rlSub =>
    obtain ⟨rfl, h4⟩ := h
    have F : writer_unlock_group_op (65536 * m) = 65536 * (m - 1) := by
      unfold writer_unlock_group_op
      rw [fetch_add_half_lin _ m 0 (-1) (by omega) (by omega) (by omega) (by omega) (by omega)]
      omega
    simp only [ReaderWaitInv, F, val_READER_FIRST, true_and]
    intro h
    have := h4 h
    omega
  case rlWait =>
    subst h
    have F : writer_unlock_group_op (65536 * m - 1) = 65536 * (m - 1) - 1 := by
      unfold writer_unlock_group_op
      rw [fetch_add_half_lin _ m 1 (-1) (by omega) (by omega) (by omega) (by omega) (by omega)]
      omega
    simp [ReaderWaitInv, F]
  case rHold => omega

theorem readerWaitInv_run (t : rw_spinlock_enum) (sched : List Bool) :
    ∀ (m : Int) (s : Int × PC), (sched.count false : Int) ≤ m → m ≤ 16383 →
      ReaderWaitInv t m s →
      ReaderWaitInv t (m - sched.count false)
        (runAgainst t false (fun pc => pc == rHold) writer_unlock_group_op sched s) := by
  induction sched with
  | nil => intro m s _ _ h; simpa [runAgainst] using h
  | cons a rest ih =>
    intro m s hc hm h
    cases a
    · simp only [List.count_cons_self, Nat.cast_add, Nat.cast_one] at hc ⊢
      have h' := readerWaitInv_env t m s.1 s.2 (by omega) hm h
      have := ih (m - 1) (writer_unlock_group_op s.1, s.2) (by omega) (by omega) h'
      simp only [runAgainst]
      have e : m - (↑(List.count false rest) + 1) = m - 1 - ↑(List.count false rest) := by
        omega
      rw [e]
      exact this
    · have hne : (true == false) = false := rfl
      simp only [List.count_cons, hne] at hc ⊢
      simp only [Bool.false_eq_true, if_false, Nat.add_zero] at hc ⊢
      have h' := readerWaitInv_own t m s.1 s.2 (by omega) hm h
      exact ih m _ hc hm h'

theorem readerWaitInv_finish (t : rw_spinlock_enum) (s : Int × PC)
    (h : ReaderWaitInv t 0 s) :
    runAgainst t false (fun pc => pc == rHold) writer_unlock_group_op [true, true] s
      = (-1, rHold) := by
  obtain ⟨w, pc⟩ := s
  cases pc <;> simp [ReaderWaitInv] at h
  case rlCheck => subst h; cases t <;> decide
  case rlSub => subst h; cases t <;> decide
  case rlWait => subst h; cases t <;> decide
  case rHold => subst h; simp [runAgainst, callStep]

/-- C8. Group scenario 4, reader side: for each policy and 1 <= k <= 16383, on the word
k * 65536 left by `k` uncontended `writer_lock_group()` calls, a `reader_lock_group()`
call run against the writers' `writer_unlock_group()` operations in any interleaving has
returned only when all `k` of them have been made, and the word is then -1; once all `k`
have been made it returns within two steps, with the word -1. -/
theorem group_reader_waits (t : rw_spinlock_enum) (k : Nat) (h1 : 1 ≤ k) (hk : k ≤ 16383)
    (sched : List Bool) (hs : sched.count false ≤ k) :
    repeatCall (writer_lock_group t (if t.val ≤ WRITER_PRIOR.val then 3 else 2)) k 0
        = some ((k : Int) * 65536) ∧
      ((runAgainst t false (fun pc => pc == rHold) writer_unlock_group_op sched
          ((k : Int) * 65536, rlCheck)).2 = rHold →
        sched.count false = k ∧
        (runAgainst t false (fun pc => pc == rHold) writer_unlock_group_op sched
          ((k : Int) * 65536, rlCheck)).1 = -1) ∧
      (sched.count false = k →
        runAgainst t false (fun pc => pc == rHold) writer_unlock_group_op
          (sched ++ [true, true]) ((k : Int) * 65536, rlCheck) = (-1, rHold)) := by
  have hinit : ReaderWaitInv t k ((k : Int) * 65536, rlCheck) := by
    simp [ReaderWaitInv, mul_comm]
  have hinv := readerWaitInv_run t sched k _ (by exact_mod_cast hs) (by exact_mod_cast hk)
    hinit
  refine ⟨?_, ?_, ?_⟩
  · have := repeat_writer_lock_group t k 0 (by omega) (by omega)
    simpa [mul_comm] using this
  · intro hpc
    rcases hrun : runAgainst t false (fun pc => pc == rHold) writer_unlock_group_op sched
      ((k : Int) * 65536, rlCheck) with ⟨w, pc⟩
    rw [hrun] at hinv hpc
    simp only at hpc
    subst hpc
    simp only [ReaderWaitInv] at hinv
    exact ⟨by omega, hinv.2⟩
  · intro hc
    rw [hc, sub_self] at hinv
    rw [runAgainst_append]
    exact readerWaitInv_finish t _ hinv

theorem group_reader_waits_witness :
    repeatCall (writer_lock_group READER_FIRST
        (if READER_FIRST.val ≤ WRITER_PRIOR.val then 3 else 2)) 2 0
        = some (((2 : Nat) : Int) * 65536) ∧
      ((runAgainst READER_FIRST false (fun pc => pc == rHold) writer_unlock_group_op
          [true, true, false, true, false, true]
          (((2 : Nat) : Int) * 65536, rlCheck)).2 = rHold →
        [true, true, false, true, false, true].count false = 2 ∧
        (runAgainst READER_FIRST false (fun pc => pc == rHold) writer_unlock_group_op
          [true, true, false, true, false, true]
          (((2 : Nat) : Int) * 65536, rlCheck)).1 = -1) ∧
      ([true, true, false, true, false, true].count false = 2 →
        runAgainst READER_FIRST false (fun pc => pc == rHold) writer_unlock_group_op
          ([true, true, false, true, false, true] ++ [true, true])
          (((2 : Nat) : Int) * 65536, rlCheck) = (-1, rHold)) :=
  group_reader_waits READER_FIRST 2 (by decide) (by decide)
    [true, true, false, true, false, true] (by decide)

/-! ## Constants -/

/-- C9. `writer_step` is confined to the writer half: for the default instantiation
`writer_step` is 65536, and adding it to any 32-bit word `x` (modulo 2^32) leaves the
reader half unchanged and adds 1 (modulo 2^16) to the writer half. -/
theorem writer_step_confined (x : Int) :
    writer_step = 65536 ∧
      reader_count_negative (fetch_add_full x writer_step) = reader_count_negative x ∧
      view_writer_lock (fetch_add_full x writer_step) = wrap16 (view_writer_lock x + 1) := by
  rw [writer_step_eq]
  unfold reader_count_negative view_writer_lock fetch_add_full wrap16 wrap32
  refine ⟨rfl, ?_, ?_⟩ <;> omega

/-! ## The busy-wait path of `writer_unlock` -/

/-- C10 (evaluation of the code). Under FAIR with `writer_unlock(true)`, two threads
reach a state in which both are outside every call while the word is 65536: thread 1
passes the reader pre-check; thread 0 takes the writer lock and reads the writer half
for its busy-wait unlock (line 106); thread 1 decrements; thread 0 stores 0 into the
writer half (line 107) over the reader's borrow; thread 0 takes the writer lock again and
reads the writer half; thread 1 rolls back, is admitted as a reader, and both release. -/
theorem busy_wait_unlock_leaves_word :
    sysRun FAIR true baseCall
        [(1, false), (1, false), (0, true), (0, true), (0, true), (0, true), (0, true),
          (1, false), (0, true), (0, true), (0, true), (0, true), (0, true), (0, true),
          (1, false), (1, false), (1, false), (0, true), (1, false), (1, false)]
        (initState 2)
      = ⟨65536, [idle, idle]⟩ := by
  decide

/-! ## The constants at other widths -/

/-- C16 (evaluation of the code). Line 20 takes the maximum from `uint16_t` whatever the
half type: with 8-bit halves `int_half_type_max` is -1 and `writer_step` is 0, with 32-bit
halves they are 32767 and 65536 (adding it to the word 0 changes the reader half and
leaves the writer half 0); only with 16-bit halves are they 2^15 - 1 and 2^16. -/
theorem constants_by_width :
    int_half_type_max_of 8 = -1 ∧ writer_step_of 8 = 0 ∧
      int_half_type_max_of 32 = 32767 ∧ writer_step_of 32 = 65536 ∧
      reader_half_of 32 (wrapSigned 64 (0 + writer_step_of 32)) = 65536 ∧
      writer_half_of 32 (wrapSigned 64 (0 + writer_step_of 32)) = 0 ∧
      int_half_type_max_of 16 = 2 ^ 15 - 1 ∧ writer_step_of 16 = 2 ^ 16 ∧
      int_half_type_max_of 16 = int_half_type_max ∧ writer_step_of 16 = writer_step := by
  decide

/-! ## The word when no call is in progress -/

theorem countP_eq_zero_of_all_idle (S : PC → Bool) (hS : S idle = false) (l : List PC)
    (h : ∀ pc ∈ l, pc = idle) : l.countP S = 0 := by
  rw [List.countP_eq_zero]
  intro a ha
  rw [h a ha, hS]
  simp

/-- C11. The word returns to zero whenever the lock is globally unheld: for each policy,
whatever the schedule of the atomic steps of at most 16383 threads running reader and
writer rounds of the base lock from word 0 (`writer_unlock` with its default argument),
a state in which every thread is outside every call (none holds, none is inside a lock
or an unlock) has the word 0. -/
theorem word_zero_when_unheld (t : rw_spinlock_enum) (n : Nat) (hn : n ≤ 16383)
    (sched : List (Nat × Bool))
    (hidle : ∀ pc ∈ (sysRun t false baseCall sched (initState n)).pcs, pc = idle) :
    (sysRun t false baseCall sched (initState n)).word = 0 := by
  have h := lockInv_run false t false (Or.inl rfl) sched _ (lockInv_init false t n hn)
  rw [callOf_false] at h
  obtain ⟨-, -, hw, -, -, -⟩ := h
  rw [countP_eq_zero_of_all_idle pRH rfl _ hidle,
    countP_eq_zero_of_all_idle pRWait rfl _ hidle,
    countP_eq_zero_of_all_idle pRRb rfl _ hidle,
    countP_eq_zero_of_all_idle pWWait rfl _ hidle,
    countP_eq_zero_of_all_idle pWH rfl _ hidle,
    countP_eq_zero_of_all_idle pStore rfl _ hidle,
    countP_eq_zero_of_all_idle pWRb rfl _ hidle,
    countP_eq_zero_of_all_idle pGW rfl _ hidle,
    countP_eq_zero_of_all_idle pGH rfl _ hidle] at hw
  simpa using hw

theorem word_zero_when_unheld_witness :
    (sysRun READER_FIRST false baseCall
      [(0, true), (1, false), (1, false), (0, true), (0, true), (1, false), (0, true),
        (0, true), (0, true), (1, false), (1, false), (1, false)] (initState 2)).word = 0 :=
  word_zero_when_unheld READER_FIRST 2 (by decide) _ (by decide)

/-! ## WRITER_FIRST: a waiting writer keeps new readers out -/

theorem step_not_rHold (t : rw_spinlock_enum) (nwf : Bool) (c : Call) (w : Int) (pc : PC)
    (h0 : 0 < w) (h1 : w < 2147483648) : (threadStep t nwf c w pc).2 ≠ rHold := by
  have hv : 0 ≤ view_writer_lock w := by
    unfold view_writer_lock wrap16
    omega
  cases pc <;> simp [threadStep, h0, hv]
  case idle =>
    cases c <;> simp [writer_lock_entry, writer_lock_group_entry] <;> split_ifs <;> simp
  case rlCheck => split_ifs <;> simp
  case rlSub => split_ifs <;> simp
  case wlSpin => split_ifs <;> simp
  case wlCas => split_ifs <;> simp
  case wlCheck => split_ifs <;> simp
  case wlAdd => split_ifs <;> simp
  case wlWaitReaders => split_ifs <;> simp
  case wlRollback => unfold writer_lock_entry; split_ifs <;> simp
  case wHold => unfold writer_unlock_entry; split_ifs <;> simp
  case wuWait => split_ifs <;> simp
  case wuLoad => split_ifs <;> simp
  case wgCheck => split_ifs <;> simp
  case wgWait => split_ifs <;> simp
  case wgSpin => split_ifs <;> simp
  case wgAdd => split_ifs <;> simp

theorem word_pos_of_writer_stands (t : rw_spinlock_enum) (s : SysState)
    (h : LockInv false t s) (ht : t.val ≤ 1) (j : Nat)
    (hj : atPC s j wlWaitReaders ∨ atPC s j wHold) :
    0 < s.word ∧ s.word < 2147483648 := by
  obtain ⟨hlen, hbad, hw, hwin, -, -⟩ := h
  have z9 := countP_eq_zero_of_imp pGW (pcBad false t) s.pcs
    (by intro p hp; cases p <;> simp [pGW, pcBad] at hp ⊢) hbad
  have z10 := countP_eq_zero_of_imp pGH (pcBad false t) s.pcs
    (by intro p hp; cases p <;> simp [pGH, pcBad] at hp ⊢) hbad
  rw [z9, z10] at hw
  have hs : step t = 1 := by
    rcases step_cases t with ⟨-, h⟩ | ⟨h, -⟩
    · exact h
    · omega
  rw [hs] at hw
  have l3 := List.countP_le_length pWRb (l := s.pcs)
  have l4 := List.countP_le_length pRH (l := s.pcs)
  have l5 := List.countP_le_length pRWait (l := s.pcs)
  have l6 := List.countP_le_length pRRb (l := s.pcs)
  have hone : 1 ≤ s.pcs.countP pWWait + s.pcs.countP pWH := by
    rcases hj with hj | hj
    · have := one_le_countP pWWait _ j _ hj rfl
      omega
    · have := one_le_countP pWH _ j _ hj rfl
      omega
  constructor <;> omega

/-- C12. WRITER_FIRST bias, for 1 <= r <= 16383: (a) `writer_lock()` called on the word
-r passes its pre-check, its fetch-add observes the negative value -r and leaves the
positive word 65536 - r, and it waits at line 85; (b) in every reachable state of at
most 16383 threads in which a writer is waiting at line 85 or holding, the word is
positive, so a reader at the pre-check stays there and a reader that decrements rolls
back, and no step of any thread admits a reader (a thread in the reader critical section
after the step was there before it); (c) the waiting writer stays at line 85
while any of the `r` readers still holds, the `r` calls of `reader_unlock()` leave the
word 65536 (reader half 0, writer half 1), and on that word the wait loop exits and
`writer_lock()` returns. -/
theorem writer_first_bias (r : Nat) (h1 : 1 ≤ r) (hr : r ≤ 16383) (n : Nat)
    (hn : n ≤ 16383) (sched : List (Nat × Bool)) (j : Nat)
    (hj : atPC (sysRun WRITER_FIRST false baseCall sched (initState n)) j wlWaitReaders ∨
      atPC (sysRun WRITER_FIRST false baseCall sched (initState n)) j wHold) :
    (writer_lock_entry WRITER_FIRST = wlCheck ∧
      callStep WRITER_FIRST false (fun pc => pc == wHold) (-(r : Int), wlCheck)
        = (-(r : Int), wlAdd) ∧
      callStep WRITER_FIRST false (fun pc => pc == wHold) (-(r : Int), wlAdd)
        = (65536 - (r : Int), wlWaitReaders) ∧
      -(r : Int) < 0 ∧ 0 < 65536 - (r : Int)) ∧
    (0 < (sysRun WRITER_FIRST false baseCall sched (initState n)).word ∧
      (∀ w : Int, 0 < w → w < 2147483648 →
        threadStep WRITER_FIRST false Call.reader w rlCheck = (w, rlCheck) ∧
        threadStep WRITER_FIRST false Call.reader w rlSub = (w - 1, rlRollback)) ∧
      ∀ (i k : Nat) (b : Bool),
        atPC (sysStep WRITER_FIRST false (sysRun WRITER_FIRST false baseCall sched
          (initState n)) i (baseCall b)) k rHold →
        atPC (sysRun WRITER_FIRST false baseCall sched (initState n)) k rHold) ∧
    ((∀ m : Nat, 1 ≤ m → m ≤ r →
        callStep WRITER_FIRST false (fun pc => pc == wHold) (65536 - (m : Int), wlWaitReaders)
          = (65536 - (m : Int), wlWaitReaders)) ∧
      repeatCall (reader_unlock WRITER_FIRST 1) r (65536 - (r : Int)) = some 65536 ∧
      reader_count_negative 65536 = 0 ∧ view_writer_lock 65536 = 1 ∧
      callStep WRITER_FIRST false (fun pc => pc == wHold) (65536, wlWaitReaders)
        = (65536, wHold)) := by
  refine ⟨⟨rfl, ?_, ?_, by omega, by omega⟩, ⟨?_, ?_, ?_⟩,
    ⟨?_, ?_, by decide, by decide, by decide⟩⟩
  · have : ¬ (0 < -(r : Int)) := by omega
    simp [callStep, threadStep, this]
  · have hf : fetch_add_full (-(r : Int)) 65536 = 65536 - r := by
      rw [fetch_add_full_lin _ 65536 (by omega) (by omega)]
      omega
    have h0 : ¬ ((r : Int) = 0) := by omega
    have hlt : (0 : Int) < r := by omega
    simp [callStep, threadStep, writer_step_eq, hf, h0, hlt]
  · have h := lockInv_run false WRITER_FIRST false (Or.inl rfl) sched _
      (lockInv_init false WRITER_FIRST n hn)
    rw [callOf_false] at h
    exact (word_pos_of_writer_stands _ _ h (by decide) j hj).1
  · intro w hw0 hw1
    have hf : fetch_add_full w (-1) = w - 1 := by
      rw [fetch_add_full_lin w (-1) (by omega) (by omega)]
      rfl
    simp [threadStep, hw0, hf]
  · intro i k b hk
    have h := lockInv_run false WRITER_FIRST false (Or.inl rfl) sched _
      (lockInv_init false WRITER_FIRST n hn)
    rw [callOf_false] at h
    obtain ⟨hpos, hlt⟩ := word_pos_of_writer_stands _ _ h (by decide) j hj
    generalize sysRun WRITER_FIRST false baseCall sched (initState n) = s at hk hpos hlt ⊢
    unfold atPC sysStep at hk
    unfold atPC
    cases hpc : s.pcs[i]? with
    | none =>
      rw [hpc] at hk
      exact hk
    | some pc =>
      rw [hpc] at hk
      simp only at hk
      by_cases hik : i = k
      · subst hik
        have hi : i < s.pcs.length := by
          rcases Nat.lt_or_ge i s.pcs.length with h | h
          · exact h
          · rw [List.getElem?_eq_none h] at hpc
            cases hpc
        rw [List.getElem?_set_self hi] at hk
        exact absurd (Option.some.inj hk) (step_not_rHold _ _ _ _ _ hpos hlt)
      · rw [List.getElem?_set_ne hik] at hk
        exact hk
  · intro m hm1 hm2
    have hR : ¬ reader_count_negative (65536 - (m : Int)) = 0 := by
      rw [reader_count_negative_iff (65536 - (m : Int)) 1 m (by omega) (by omega) (by omega)]
      omega
    simp [callStep, threadStep, hR]
  · have := repeat_reader_unlock WRITER_FIRST r (65536 - (r : Int)) (by omega) (by omega)
    simpa using this

theorem writer_first_bias_witness :
    atPC (sysRun WRITER_FIRST false baseCall
        [(0, false), (0, false), (0, false), (1, true), (1, true), (1, true)]
        (initState 3)) 1 wlWaitReaders ∧
      0 < (sysRun WRITER_FIRST false baseCall
        [(0, false), (0, false), (0, false), (1, true), (1, true), (1, true)]
        (initState 3)).word :=
  ⟨by unfold atPC; decide, (writer_first_bias 1 (by decide) (by decide) 3 (by decide)
    [(0, false), (0, false), (0, false), (1, true), (1, true), (1, true)] 1
    (Or.inl (by unfold atPC; decide))).2.1.1⟩

/-! ## Reader handoff -/

/-- C13. Reader handoff at -1, under READER_PRIOR and READER_FIRST and for
1 <= k <= 16383: a reader that decrements while the writer holds waits at line 51; on the
word 0x7FFF0000 - k (writer half 32766) `writer_unlock()` takes the branch of line 112
and leaves the word -k (writer half -1); on that word, and on every word -m with
1 <= m <= k, a waiting reader's loop exits and `reader_lock()` returns with the word
unchanged; `k` calls of `reader_unlock()` then bring the word to 0. -/
theorem reader_handoff (t : rw_spinlock_enum) (ht : t = READER_PRIOR ∨ t = READER_FIRST)
    (k : Nat) (h1 : 1 ≤ k) (hk : k ≤ 16383) :
    writer_lock t 2 0 = some 2147418112 ∧
      (∀ j : Nat, j < k →
        threadStep t false Call.reader (2147418112 - (j : Int)) rlSub
          = (2147418112 - ((j + 1 : Nat) : Int), rlWait)) ∧
      view_writer_lock (2147418112 - (k : Int)) = 32766 ∧
      threadStep t false Call.reader (2147418112 - (k : Int)) wuLoad
        = (2147418112 - (k : Int), wuStore) ∧
      writer_unlock t false 2 (2147418112 - (k : Int)) = some (-(k : Int)) ∧
      view_writer_lock (-(k : Int)) = -1 ∧
      (∀ m : Nat, 1 ≤ m → m ≤ k →
        threadStep t false Call.reader (-(m : Int)) rlWait = (-(m : Int), rHold)) ∧
      repeatCall (reader_unlock t 1) k (-(k : Int)) = some 0 := by
  have hs : step t = 32767 := by rcases ht with rfl | rfl <;> decide
  have htv : ¬ t.val < 3 := by rcases ht with rfl | rfl <;> decide
  have hue : writer_unlock_entry t false = wuLoad := by rcases ht with rfl | rfl <;> decide
  have hhi : view_writer_lock (2147418112 - (k : Int)) = 32766 := by
    unfold view_writer_lock wrap16
    omega
  have hst : set_view_writer_lock (2147418112 - (k : Int)) (-1) = -(k : Int) := by
    unfold set_view_writer_lock wrap16 wrap32
    omega
  refine ⟨by rcases ht with rfl | rfl <;> decide, ?_, hhi, ?_, ?_, ?_, ?_, ?_⟩
  · intro j hj
    have hpos : (0 : Int) < 2147418112 - j := by omega
    have hf : fetch_add_full (2147418112 - (j : Int)) (-1) = 2147418112 - ((j + 1 : Nat) : Int) := by
      rw [fetch_add_full_lin _ (-1) (by omega) (by omega)]
      push_cast
      omega
    simp only [threadStep, hpos, if_true, hf, val_READER_PRIOR, htv, if_false]
  · simp [threadStep, hhi, hs]
  · simp [writer_unlock, hue, runCall, threadStep, hhi, hs, hst]
  · unfold view_writer_lock wrap16
    omega
  · intro m hm1 hm2
    have hneg : ¬ (0 ≤ view_writer_lock (-(m : Int))) := by
      unfold view_writer_lock wrap16
      omega
    simp [threadStep, hneg]
  · have := repeat_reader_unlock t k (-(k : Int)) (by omega) (by omega)
    simpa using this

theorem reader_handoff_witness :
    writer_lock READER_FIRST 2 0 = some 2147418112 ∧
      writer_unlock READER_FIRST false 2 (2147418112 - ((2 : Nat) : Int))
        = some (-((2 : Nat) : Int)) :=
  ⟨(reader_handoff READER_FIRST (Or.inr rfl) 2 (by decide) (by decide)).1,
    (reader_handoff READER_FIRST (Or.inr rfl) 2 (by decide) (by decide)).2.2.2.2.1⟩

/-! ## Unlock operations -/

theorem unlock_reaches_idle (t : rw_spinlock_enum) (env : Int → Int) (sched : List Bool) :
    ∀ (w : Int) (pc : PC),
      (pc = idle ∨
        ((pc = ruAdd ∨ pc = wuSub ∨ pc = wuStore ∨ pc = wguSub) ∧ 1 ≤ sched.count true) ∨
        (pc = wuLoad ∧ 2 ≤ sched.count true)) →
      (runAgainst t false (fun pc => pc == idle) env sched (w, pc)).2 = idle := by
  induction sched with
  | nil =>
    intro w pc h
    rcases h with h | ⟨-, h⟩ | ⟨-, h⟩
    · simpa [runAgainst] using h
    · simp at h
    · simp at h
  | cons a rest ih =>
    intro w pc h
    cases a
    · have hne : (false == true) = false := rfl
      simp only [List.count_cons, hne, Bool.false_eq_true, if_false, Nat.add_zero] at h
      simp only [runAgainst]
      exact ih _ _ h
    · simp only [List.count_cons_self] at h
      simp only [runAgainst]
      rcases h with rfl | ⟨hpc, -⟩ | ⟨rfl, h2⟩
      · exact ih _ _ (Or.inl rfl)
      · rcases hpc with rfl | rfl | rfl | rfl <;>
          exact ih _ _ (Or.inl (by simp [callStep, threadStep]))
      · have hnext : (callStep t false (fun pc => pc == idle) (w, wuLoad)).2 = wuStore ∨
            (callStep t false (fun pc => pc == idle) (w, wuLoad)).2 = wuSub := by
          have hx : (wuLoad == idle) = false := rfl
          simp only [callStep, hx, Bool.false_eq_true, if_false, threadStep]
          split_ifs <;> simp
        rcases hnext with hn | hn
        · apply ih
          exact Or.inr (Or.inl ⟨Or.inr (Or.inr (Or.inl hn)), by omega⟩)
        · apply ih
          exact Or.inr (Or.inl ⟨Or.inr (Or.inl hn), by omega⟩)

theorem writer_unlock_default_eq (t : rw_spinlock_enum) (w : Int) :
    writer_unlock t false 2 w = some (fetch_add_half w (-(step t))) := by
  have hstore : view_writer_lock w = 32766 →
      set_view_writer_lock w (-1) = fetch_add_half w (-32767) := by
    intro h
    unfold fetch_add_half
    rw [h]
    rfl
  have h1 : step WRITER_FIRST = 1 := by decide
  have h2 : step WRITER_PRIOR = 1 := by decide
  have h3 : step FAIR = 32767 := by decide
  have h4 : step READER_PRIOR = 32767 := by decide
  have h5 : step READER_FIRST = 32767 := by decide
  cases t
  · simp [writer_unlock, writer_unlock_entry, runCall, threadStep, h1]
  · simp [writer_unlock, writer_unlock_entry, runCall, threadStep, h2]
  · simp [writer_unlock, writer_unlock_entry, runCall, threadStep, h3]
  · by_cases hh : view_writer_lock w = 32766
    · simp [writer_unlock, writer_unlock_entry, runCall, threadStep, h4, hh, hstore hh]
    · simp [writer_unlock, writer_unlock_entry, runCall, threadStep, h4, hh]
  · by_cases hh : view_writer_lock w = 32766
    · simp [writer_unlock, writer_unlock_entry, runCall, threadStep, h5, hh, hstore hh]
    · simp [writer_unlock, writer_unlock_entry, runCall, threadStep, h5, hh]

theorem writer_unlock_entry_default (t : rw_spinlock_enum) :
    writer_unlock_entry t false = wuSub ∨ writer_unlock_entry t false = wuLoad := by
  cases t <;> decide

/-- C14. Unlock never blocks: for each policy and every word, `reader_unlock()` is the one
fetch-add of 1 on the full word, `writer_unlock_group()` the one fetch-sub of 1 on the
writer half, and `writer_unlock()` with its default argument returns within two
operations; and whatever other threads do to the word between its steps, each of the
three calls has returned once it has taken one step (two for `writer_unlock`). -/
theorem unlock_never_blocks (t : rw_spinlock_enum) (w : Int) (env : Int → Int)
    (sched : List Bool) :
    reader_unlock t 1 w = some (fetch_add_full w 1) ∧
      writer_unlock_group t 1 w = some (fetch_add_half w (-1)) ∧
      (writer_unlock t false 2 w).isSome = true ∧
      (1 ≤ sched.count true →
        (runAgainst t false (fun pc => pc == idle) env sched (w, ruAdd)).2 = idle) ∧
      (1 ≤ sched.count true →
        (runAgainst t false (fun pc => pc == idle) env sched (w, wguSub)).2 = idle) ∧
      (2 ≤ sched.count true →
        (runAgainst t false (fun pc => pc == idle) env sched
          (w, writer_unlock_entry t false)).2 = idle) := by
  refine ⟨by simp [reader_unlock, runCall, threadStep],
    by simp [writer_unlock_group, runCall, threadStep], ?_, ?_, ?_, ?_⟩
  · rw [writer_unlock_default_eq]
    rfl
  · intro h
    exact unlock_reaches_idle t env sched w ruAdd (Or.inr (Or.inl ⟨Or.inl rfl, h⟩))
  · intro h
    exact unlock_reaches_idle t env sched w wguSub
      (Or.inr (Or.inl ⟨Or.inr (Or.inr (Or.inr rfl)), h⟩))
  · intro h
    rcases writer_unlock_entry_default t with he | he
    · rw [he]
      exact unlock_reaches_idle t env sched w wuSub
        (Or.inr (Or.inl ⟨Or.inr (Or.inl rfl), by omega⟩))
    · rw [he]
      exact unlock_reaches_idle t env sched w wuLoad (Or.inr (Or.inr ⟨rfl, h⟩))

theorem runCall_congr (t : rw_spinlock_enum) (a b : Bool) (exit : PC → Bool)
    (h : ∀ (w : Int) (pc : PC),
      threadStep t a Call.reader w pc = threadStep t b Call.reader w pc) (fuel : Nat) :
    ∀ (w : Int) (pc : PC), runCall t a exit fuel w pc = runCall t b exit fuel w pc := by
  induction fuel with
  | zero => intro w pc; simp [runCall]
  | succ k ih =>
    intro w pc
    simp only [runCall, h w pc, ih]

/-- C15. Outside FAIR the busy-wait flag is a no-op: for WRITER_FIRST, WRITER_PRIOR,
READER_PRIOR and READER_FIRST, every step of a thread is the same with
`writer_unlock(true)` as with `writer_unlock(false)`, the call starts at the same program
point, and on every word and with every fuel the two calls give the same result. -/
theorem busy_wait_flag_noop (t : rw_spinlock_enum) (ht : t ≠ FAIR) (c : Call) (w : Int)
    (pc : PC) (fuel : Nat) :
    threadStep t true c w pc = threadStep t false c w pc ∧
      writer_unlock_entry t true = writer_unlock_entry t false ∧
      writer_unlock t true fuel w = writer_unlock t false fuel w := by
  have he : writer_unlock_entry t true = writer_unlock_entry t false := by
    cases t <;> first | rfl | exact absurd rfl ht
  have hstep : ∀ (c : Call) (w : Int) (pc : PC),
      threadStep t true c w pc = threadStep t false c w pc := by
    intro c w pc
    cases pc <;> simp only [threadStep, he]
  refine ⟨hstep c w pc, he, ?_⟩
  unfold writer_unlock
  rw [he]
  exact runCall_congr t true false _ (fun w pc => hstep Call.reader w pc) fuel _ _

theorem busy_wait_flag_noop_witness :
    threadStep WRITER_FIRST true Call.writer 65536 wHold
        = threadStep WRITER_FIRST false Call.writer 65536 wHold ∧
      writer_unlock_entry WRITER_FIRST true = writer_unlock_entry WRITER_FIRST false ∧
      writer_unlock WRITER_FIRST true 2 65536 = writer_unlock WRITER_FIRST false 2 65536 :=
  busy_wait_flag_noop WRITER_FIRST (by decide) Call.writer 65536 wHold 2

theorem step_eq_acquire_step_spec (t : rw_spinlock_enum) : step t = acquire_step_spec t := by
  cases t <;> decide

/-- C17. `writer_unlock` subtracts exactly the step used to acquire: for each policy and
every word, `writer_unlock()` with its default argument returns the word the spec
describes, whose reader half is unchanged and whose writer half has lost the step
(modulo 2^16), the step being 1 for WRITER_FIRST and WRITER_PRIOR and 32767 for the other
policies, the one `writer_lock()` adds from 0; and where the branch of line 112 is taken
(writer half equal to step - 1 under READER_PRIOR and READER_FIRST) the store of -1 gives
the word the subtraction of line 114 would give. -/
theorem writer_unlock_subtracts_step (t : rw_spinlock_enum) (w : Int) :
    writer_unlock t false 2 w = some (writer_unlock_spec t w) ∧
      reader_count_negative (writer_unlock_spec t w) = reader_count_negative w ∧
      view_writer_lock (writer_unlock_spec t w)
        = wrap16 (view_writer_lock w - acquire_step_spec t) ∧
      writer_lock t 2 0 = some (65536 * acquire_step_spec t) ∧
      (t.val > FAIR.val → view_writer_lock w = step t - 1 →
        (threadStep t false Call.reader w wuLoad = (w, wuStore) ∧
          (threadStep t false Call.reader w wuStore).1
            = (threadStep t false Call.reader w wuSub).1)) := by
  refine ⟨?_, ?_, ?_, by cases t <;> decide, ?_⟩
  · rw [writer_unlock_default_eq, step_eq_acquire_step_spec]
    rfl
  · have : acquire_step_spec t = 1 ∨ acquire_step_spec t = 32767 := by
      cases t <;> simp [acquire_step_spec]
    unfold writer_unlock_spec reader_count_negative view_writer_lock wrap16 wrap32
    rcases this with h | h <;> rw [h] <;> omega
  · have : acquire_step_spec t = 1 ∨ acquire_step_spec t = 32767 := by
      cases t <;> simp [acquire_step_spec]
    unfold writer_unlock_spec view_writer_lock wrap16 wrap32
    rcases this with h | h <;> rw [h] <;> omega
  · intro ht hhi
    have hs : step t = 32767 := by
      cases t <;> simp at ht <;> decide
    rw [hs] at hhi
    have hhi' : view_writer_lock w = 32766 := by omega
    refine ⟨by simp [threadStep, hs, hhi'], ?_⟩
    simp only [threadStep, hs]
    unfold fetch_add_half
    rw [hhi']
    rfl

/-- C18. The writer compare-and-swap on the writer half is equivalent to one on the
combined word: for the compare-and-swap policies, W in {0, 1} and 0 <= r <= 16383, the
word 0x7FFF0000 * W - r has writer half 0 exactly when it is 0, so the step of line 70
succeeds exactly when the spec's compare-and-swap of the combined word from 0 does, and
then leaves the same word 0x7FFF0000 (writer half `int_half_type_max`, reader half 0);
when it fails the word is unchanged and the loop restarts. -/
theorem cas_half_equiv_combined (t : rw_spinlock_enum) (ht : t.val > WRITER_PRIOR.val)
    (W r : Nat) (hW : W ≤ 1) (hr : r ≤ 16383) :
    writer_lock_entry t = wlSpin ∧
      (view_writer_lock (2147418112 * (W : Int) - (r : Int)) = 0
        ↔ 2147418112 * (W : Int) - (r : Int) = 0) ∧
      threadStep t false Call.reader (2147418112 * (W : Int) - (r : Int)) wlCas
        = (match cas_combined_spec (2147418112 * (W : Int) - (r : Int)) with
          | some w1 => (w1, wHold)
          | none => (2147418112 * (W : Int) - (r : Int), wlSpin)) ∧
      cas_combined_spec 0 = some 2147418112 ∧
      view_writer_lock 2147418112 = int_half_type_max ∧
      reader_count_negative 2147418112 = 0 := by
  have hiff : view_writer_lock (2147418112 * (W : Int) - (r : Int)) = 0
      ↔ 2147418112 * (W : Int) - (r : Int) = 0 := by
    have hW' : W = 0 ∨ W = 1 := by omega
    unfold view_writer_lock wrap16
    rcases hW' with rfl | rfl
    · simp only [Nat.cast_zero, mul_zero]
      omega
    · simp only [Nat.cast_one, mul_one]
      omega
  refine ⟨?_, hiff, ?_, by decide, by decide, by decide⟩
  · unfold writer_lock_entry
    simp only [ht, if_true]
  · by_cases h0 : 2147418112 * (W : Int) - (r : Int) = 0
    · have hh := hiff.2 h0
      rw [h0] at hh ⊢
      simp only [threadStep, hh, if_true, cas_combined_spec]
      decide
    · have hh : ¬ view_writer_lock (2147418112 * (W : Int) - (r : Int)) = 0 :=
        fun h => h0 (hiff.1 h)
      simp [threadStep, hh, cas_combined_spec, h0]

theorem cas_half_equiv_combined_witness :
    threadStep FAIR false Call.reader (2147418112 * ((1 : Nat) : Int) - ((3 : Nat) : Int)) wlCas
        = (match cas_combined_spec (2147418112 * ((1 : Nat) : Int) - ((3 : Nat) : Int)) with
          | some w1 => (w1, wHold)
          | none => (2147418112 * ((1 : Nat) : Int) - ((3 : Nat) : Int), wlSpin)) :=
  (cas_half_equiv_combined FAIR (by decide) 1 3 (by decide) (by decide)).2.2.1

/-! ## WRITER_PRIOR and the readers that locked first -/

theorem iterate_fixed {α : Type} (f : α → α) (x : α) (h : f x = x) (k : Nat) :
    f^[k] x = x := by
  induction k with
  | zero => rfl
  | succ n ih => rw [Function.iterate_succ_apply, h, ih]

theorem set_eq_self_of_getElem? (a : PC) :
    ∀ (l : List PC) (i : Nat), l[i]? = some a → l.set i a = l := by
  intro l
  induction l with
  | nil => intro i h; simp at h
  | cons b l ih =>
    intro i h
    cases i with
    | zero =>
      simp at h
      subst h
      rfl
    | succ j =>
      simp at h
      simp [ih j h]

theorem sysStep_wlCheck_frame (s : SysState) (i : Nat) (nwf : Bool) (c : Call)
    (hi : atPC s i wlCheck) (hw : s.word ≠ 0) : sysStep WRITER_PRIOR nwf s i c = s := by
  unfold atPC at hi
  have hset := set_eq_self_of_getElem? wlCheck s.pcs i hi
  unfold sysStep
  rw [hi]
  simp [threadStep, hw, hset]

theorem runAgainst_wlCheck_frame (env : Int → Int) (henv : ∀ w : Int, w ≠ 0 → env w ≠ 0)
    (sched : List Bool) :
    ∀ w : Int, w ≠ 0 →
      runAgainst WRITER_PRIOR false (fun pc => pc == wHold) env sched (w, wlCheck)
        = (env^[sched.count false] w, wlCheck) := by
  induction sched with
  | nil =>
    intro w _
    rfl
  | cons a rest ih =>
    intro w hw
    cases a
    · simp only [runAgainst, List.count_cons_self, Function.iterate_succ_apply]
      exact ih _ (henv w hw)
    · have hne : (true == false) = false := rfl
      have hx : (wlCheck == wHold) = false := rfl
      simp only [runAgainst, List.count_cons, hne, Bool.false_eq_true, if_false, Nat.add_zero,
        callStep, hx, threadStep]
      simp only [hw, ne_eq, not_false_eq_true, if_true]
      have : ¬ (WRITER_PRIOR = WRITER_FIRST) := by decide
      simp only [this, if_false]
      exact ih w hw

/-- C19 (counterexample). Under WRITER_PRIOR a `writer_lock()` call writes to the word
while the word is non-zero: thread 0 passes the pre-check of line 78 on the word 0,
thread 1 takes the reader lock (word -1), and thread 0's fetch-add of line 81 then
changes the word to 65535; on that word a further `reader_lock()` does not return on its
first iteration (nor within 50 steps). -/
theorem writer_prior_writes_on_nonzero_word :
    sysRun WRITER_PRIOR false baseCall
        [(0, true), (0, true), (1, false), (1, false), (1, false)] (initState 2)
      = ⟨-1, [wlAdd, rHold]⟩ ∧
      (-1 : Int) ≠ 0 ∧
      sysStep WRITER_PRIOR false ⟨-1, [wlAdd, rHold]⟩ 0 (baseCall true)
        = ⟨65535, [wlWaitReaders, rHold]⟩ ∧
      (65535 : Int) ≠ -1 ∧
      reader_lock WRITER_PRIOR 2 65535 = none ∧
      reader_lock WRITER_PRIOR 50 65535 = none := by
  decide

/-- C19 (amended). Under WRITER_PRIOR `writer_lock()` performs no write to the word while
it is at its pre-check (line 78) and the word is non-zero: in any state of the system a
step of a thread at the pre-check leaves a non-zero word and every program point as they
are; run against any operations `env` of other threads that keep the word non-zero, the
call stays at the pre-check and the word is the one `env` alone produces; for
1 <= r <= 16383, after any number `k` of steps of `writer_lock()` on the word -r the word
is still -r and a further `reader_lock()` returns on its first iteration; under
WRITER_FIRST two steps of the same call change the word to 65536 - r. -/
theorem writer_prior_frame (r : Nat) (h1 : 1 ≤ r) (hr : r ≤ 16383) (k : Nat)
    (s : SysState) (i : Nat) (nwf : Bool) (c : Call) (hi : atPC s i wlCheck)
    (hs : s.word ≠ 0) (env : Int → Int) (henv : ∀ w : Int, w ≠ 0 → env w ≠ 0)
    (sched : List Bool) (w0 : Int) (hw0 : w0 ≠ 0) :
    sysStep WRITER_PRIOR nwf s i c = s ∧
      runAgainst WRITER_PRIOR false (fun pc => pc == wHold) env sched (w0, wlCheck)
        = (env^[sched.count false] w0, wlCheck) ∧
      (∀ w : Int, w ≠ 0 →
        threadStep WRITER_PRIOR false Call.reader w wlCheck = (w, wlCheck)) ∧
      (callStep WRITER_PRIOR false (fun pc => pc == wHold))^[k]
          (-(r : Int), writer_lock_entry WRITER_PRIOR) = (-(r : Int), wlCheck) ∧
      reader_lock WRITER_PRIOR 2 (-(r : Int)) = some (-(r : Int) - 1) ∧
      (callStep WRITER_FIRST false (fun pc => pc == wHold))^[2]
          (-(r : Int), writer_lock_entry WRITER_FIRST) = (65536 - (r : Int), wlWaitReaders) := by
  have hne : ¬ (-(r : Int) = 0) := by omega
  have hr0 : ¬ ((r : Int) = 0) := by omega
  refine ⟨sysStep_wlCheck_frame s i nwf c hi hs, runAgainst_wlCheck_frame env henv sched w0 hw0,
    ?_, ?_, reader_lock_first_try _ _ (by omega) (by omega), ?_⟩
  · intro w hw
    simp [threadStep, hw]
  · apply iterate_fixed
    have he : writer_lock_entry WRITER_PRIOR = wlCheck := rfl
    simp [callStep, threadStep, he, hr0]
  · have hf : fetch_add_full (-(r : Int)) 65536 = 65536 - r := by
      rw [fetch_add_full_lin _ 65536 (by omega) (by omega)]
      omega
    have hlt : (0 : Int) < r := by omega
    have hnp : ¬ (0 < -(r : Int)) := by omega
    have he : writer_lock_entry WRITER_FIRST = wlCheck := rfl
    simp [callStep, threadStep, he, writer_step_eq, hf, hr0, hlt, hnp]

theorem writer_prior_frame_witness :
    sysStep WRITER_PRIOR false ⟨-2, [wlCheck, rHold, rHold]⟩ 0 Call.writer
        = ⟨-2, [wlCheck, rHold, rHold]⟩ ∧
      runAgainst WRITER_PRIOR false (fun pc => pc == wHold)
          (fun w => if w = -2 then -1 else w) [true, false, true] (-2, wlCheck)
        = (-1, wlCheck) ∧
      (callStep WRITER_PRIOR false (fun pc => pc == wHold))^[7]
        (-((2 : Nat) : Int), writer_lock_entry WRITER_PRIOR) = (-((2 : Nat) : Int), wlCheck) ∧
      (callStep WRITER_FIRST false (fun pc => pc == wHold))^[2]
        (-((2 : Nat) : Int), writer_lock_entry WRITER_FIRST)
        = (65536 - ((2 : Nat) : Int), wlWaitReaders) :=
  ⟨(writer_prior_frame 2 (by decide) (by decide) 7 ⟨-2, [wlCheck, rHold, rHold]⟩ 0 false
      Call.writer (by unfold atPC; decide) (by decide) (fun w => if w = -2 then -1 else w)
      (fun w h => by dsimp only; split_ifs <;> omega)
      [true, false, true] (-2) (by decide)).1,
    (writer_prior_frame 2 (by decide) (by decide) 7 ⟨-2, [wlCheck, rHold, rHold]⟩ 0 false
      Call.writer (by unfold atPC; decide) (by decide) (fun w => if w = -2 then -1 else w)
      (fun w h => by dsimp only; split_ifs <;> omega)
      [true, false, true] (-2) (by decide)).2.1,
    (writer_prior_frame 2 (by decide) (by decide) 7 ⟨-2, [wlCheck, rHold, rHold]⟩ 0 false
      Call.writer (by unfold atPC; decide) (by decide) (fun w => if w = -2 then -1 else w)
      (fun w h => by dsimp only; split_ifs <;> omega)
      [true, false, true] (-2) (by decide)).2.2.2.1,
    (writer_prior_frame 2 (by decide) (by decide) 7 ⟨-2, [wlCheck, rHold, rHold]⟩ 0 false
      Call.writer (by unfold atPC; decide) (by decide) (fun w => if w = -2 then -1 else w)
      (fun w h => by dsimp only; split_ifs <;> omega)
      [true, false, true] (-2) (by decide)).2.2.2.2.2⟩

/-! ## Rollbacks -/

theorem fetch_add_half_eq_wrap32 (w d : Int) :
    fetch_add_half w d = wrap32 (w + 65536 * d) := by
  unfold fetch_add_half set_view_writer_lock view_writer_lock wrap16 wrap32
  omega

theorem applyOp_eq_wrap32 (op : AtomicOp) :
    ∃ c : Int, ∀ w : Int, applyOp w op = wrap32 (w + c) := by
  cases op with
  | full d => exact ⟨d, fun w => rfl⟩
  | half d => exact ⟨65536 * d, fun w => fetch_add_half_eq_wrap32 w d⟩

theorem wrap32_add_comm (x c e : Int) :
    wrap32 (wrap32 (x + c) + e) = wrap32 (wrap32 (x + e) + c) := by
  unfold wrap32
  omega

theorem applyOps_shift (ops : List AtomicOp) :
    ∀ (x c : Int), applyOps ops (wrap32 (x + c)) = wrap32 (applyOps ops x + c) := by
  induction ops with
  | nil =>
    intro x c
    rfl
  | cons op rest ih =>
    intro x c
    obtain ⟨e, he⟩ := applyOp_eq_wrap32 op
    simp only [applyOps, he]
    rw [wrap32_add_comm, ih]

theorem applyOps_range (ops : List AtomicOp) :
    ∀ x : Int, -2147483648 ≤ x → x < 2147483648 →
      -2147483648 ≤ applyOps ops x ∧ applyOps ops x < 2147483648 := by
  induction ops with
  | nil =>
    intro x h0 h1
    exact ⟨h0, h1⟩
  | cons op rest ih =>
    intro x _ _
    obtain ⟨e, he⟩ := applyOp_eq_wrap32 op
    simp only [applyOps, he]
    apply ih <;> unfold wrap32 <;> omega

theorem add_then_rollback (x : Int) (h0 : -2147483648 ≤ x) (h1 : x < 2147483648)
    (ops : List AtomicOp) :
    fetch_add_full (applyOps ops (fetch_add_full x (-1))) 1 = applyOps ops x ∧
      fetch_add_half (applyOps ops (fetch_add_full x writer_step)) (-1) = applyOps ops x := by
  obtain ⟨r0, r1⟩ := applyOps_range ops x h0 h1
  constructor
  · unfold fetch_add_full
    rw [applyOps_shift]
    generalize applyOps ops x = y at r0 r1 ⊢
    unfold wrap32
    omega
  · rw [fetch_add_half_eq_wrap32, writer_step_eq]
    unfold fetch_add_full
    rw [applyOps_shift]
    generalize applyOps ops x = y at r0 r1 ⊢
    unfold wrap32
    omega

theorem rlSub_word (t : rw_spinlock_enum) (nwf : Bool) (c : Call) (x : Int) :
    (threadStep t nwf c x rlSub).1 = fetch_add_full x (-1) := by
  simp only [threadStep]
  split_ifs <;> rfl

theorem wlAdd_word (t : rw_spinlock_enum) (nwf : Bool) (c : Call) (x : Int) :
    (threadStep t nwf c x wlAdd).1 = fetch_add_full x writer_step := by
  simp only [threadStep]
  split_ifs <;> rfl

theorem wgAdd_word (t : rw_spinlock_enum) (nwf : Bool) (c : Call) (x : Int) :
    (threadStep t nwf c x wgAdd).1 = fetch_add_full x writer_step := by
  simp only [threadStep]
  split_ifs <;> rfl

/-- C20. Every failed attempt's rollback is an exact inverse, at the rollback sites of
the code (lines 43/48, 81/88 and 150/155): for every policy and every 32-bit word `x`,
the step of line 48 on the word the step of line 43 left gives `x` and returns to the
pre-check, and a reader of WRITER_FIRST, WRITER_PRIOR or FAIR that decrements a positive
word goes to line 48; the step of line 88 on the word the step of line 81 left gives `x`
and restarts the loop, and a writer that adds to a positive word goes to line 88; the
step of line 155 on the word the step of line 150 left gives `x` and restarts the loop,
and a group writer that adds to a word with a non-zero reader half goes to line 155.
With any atomic additions and subtractions `ops` of other threads between the two steps
of a pair, the word after the pair is the word `ops` alone would have left; and every
adding or subtracting step of the code is such an operation. -/
theorem rollback_exact_inverse (t : rw_spinlock_enum) (nwf : Bool) (c : Call) (x : Int)
    (h0 : -2147483648 ≤ x) (h1 : x < 2147483648) (ops : List AtomicOp) :
    (threadStep t nwf c (threadStep t nwf c x rlSub).1 rlRollback = (x, rlCheck) ∧
      (0 < x → t.val < READER_PRIOR.val → (threadStep t nwf c x rlSub).2 = rlRollback) ∧
      (threadStep t nwf c (applyOps ops (threadStep t nwf c x rlSub).1) rlRollback).1
        = applyOps ops x) ∧
    (threadStep t nwf c (threadStep t nwf c x wlAdd).1 wlRollback
        = (x, writer_lock_entry t) ∧
      (0 < x → (threadStep t nwf c x wlAdd).2 = wlRollback) ∧
      (threadStep t nwf c (applyOps ops (threadStep t nwf c x wlAdd).1) wlRollback).1
        = applyOps ops x) ∧
    (threadStep t nwf c (threadStep t nwf c x wgAdd).1 wgRollback = (x, wgSpin) ∧
      (reader_count_negative x ≠ 0 → (threadStep t nwf c x wgAdd).2 = wgRollback) ∧
      (threadStep t nwf c (applyOps ops (threadStep t nwf c x wgAdd).1) wgRollback).1
        = applyOps ops x) ∧
    (∀ pc : PC, pc ∈ [rlSub, rlRollback, ruAdd, wlAdd, wlRollback, wuSub, wgInc, wgAdd,
        wgRollback, wguSub] →
      ∃ op : AtomicOp, ∀ w : Int, (threadStep t nwf c w pc).1 = applyOp w op) := by
  obtain ⟨hr, hw⟩ := add_then_rollback x h0 h1 ops
  obtain ⟨hr0, hw0⟩ := add_then_rollback x h0 h1 []
  simp only [applyOps] at hr0 hw0
  refine ⟨⟨?_, ?_, ?_⟩, ⟨?_, ?_, ?_⟩, ⟨?_, ?_, ?_⟩, ?_⟩
  · rw [rlSub_word]
    simp only [threadStep, hr0]
  · intro hx ht
    simp only [threadStep, hx, if_true, ht]
  · rw [rlSub_word]
    simpa only [threadStep] using hr
  · rw [wlAdd_word]
    simp only [threadStep, hw0]
  · intro hx
    have hne : ¬ x = 0 := by omega
    have hnl : ¬ x < 0 := by omega
    simp only [threadStep, hne, hnl, if_false]
  · rw [wlAdd_word]
    simpa only [threadStep] using hw
  · rw [wgAdd_word]
    simp only [threadStep, hw0]
  · intro hx
    have hb : ¬ bitand_mask x (writer_step - 1) = 0 := by
      rw [writer_step_eq]
      unfold reader_count_negative wrap16 at hx
      unfold bitand_mask
      omega
    simp only [threadStep, hb, if_false]
  · rw [wgAdd_word]
    simpa only [threadStep] using hw
  · intro pc hpc
    simp only [List.mem_cons, List.mem_singleton, List.mem_nil_iff, or_false] at hpc
    rcases hpc with rfl | rfl | rfl | rfl | rfl | rfl | rfl | rfl | rfl | rfl
    · exact ⟨AtomicOp.full (-1), fun w => rlSub_word t nwf c w⟩
    · exact ⟨AtomicOp.full 1, fun _ => rfl⟩
    · exact ⟨AtomicOp.full 1, fun _ => rfl⟩
    · exact ⟨AtomicOp.full writer_step, fun w => wlAdd_word t nwf c w⟩
    · exact ⟨AtomicOp.half (-1), fun _ => rfl⟩
    · exact ⟨AtomicOp.half (-(step t)), fun _ => rfl⟩
    · exact ⟨AtomicOp.half 1, fun _ => rfl⟩
    · exact ⟨AtomicOp.full writer_step, fun w => wgAdd_word t nwf c w⟩
    · exact ⟨AtomicOp.half (-1), fun _ => rfl⟩
    · exact ⟨AtomicOp.half (-1), fun _ => rfl⟩

theorem rollback_exact_inverse_witness :
    threadStep FAIR false Call.reader
        (threadStep FAIR false Call.reader 2147418112 rlSub).1 rlRollback
        = (2147418112, rlCheck) ∧
      (threadStep FAIR false Call.reader
        (applyOps [AtomicOp.half (-32767), AtomicOp.full (-1)]
          (threadStep FAIR false Call.reader 2147418112 rlSub).1) rlRollback).1
        = applyOps [AtomicOp.half (-32767), AtomicOp.full (-1)] 2147418112 ∧
      threadStep FAIR false Call.reader
        (threadStep FAIR false Call.reader 2147418112 wgAdd).1 wgRollback
        = (2147418112, wgSpin) :=
  ⟨(rollback_exact_inverse FAIR false Call.reader 2147418112 (by decide) (by decide)
      [AtomicOp.half (-32767), AtomicOp.full (-1)]).1.1,
    (rollback_exact_inverse FAIR false Call.reader 2147418112 (by decide) (by decide)
      [AtomicOp.half (-32767), AtomicOp.full (-1)]).1.2.2,
    (rollback_exact_inverse FAIR false Call.reader 2147418112 (by decide) (by decide)
      [AtomicOp.half (-32767), AtomicOp.full (-1)]).2.2.1.1⟩

end RwSpinlock
